import Mathlib

/-!
Verification development for the bunya-search aptitude questionnaire.

The embedding covers the three algorithmic components of the repository:
the adaptive Likert selector (`src/prototype-client/src/utils.ts`), the
response aggregator (`src/prototype-client/src/main.tsx`) and the offline
calibration analyzer / weight applier (the C# `ScoreOptimizer` tool).

Modelling conventions:
* identifier strings (question ids, option keys, categories, tags) are
  modelled as `List Char`;
* IEEE doubles are modelled as exact rationals `ℚ`; a JavaScript number
  that may be `NaN` (which arises in the aggregator from the out-of-range
  array access `weights[index]`) is modelled as `Option ℚ` with `none`
  playing the role of `NaN`;
* JavaScript `Map`/object accumulators are modelled as insertion-ordered
  association lists;
* `Array.prototype.sort` with comparator `(a, b) => key(b) - key(a)` is
  modelled as a stable descending insertion sort.  For `NaN` keys the
  relative order produced by the engine is implementation-defined
  (the comparator is inconsistent); the model fixes `NaN` as the smallest
  key, which coincides with engine behaviour on all `NaN`-free inputs.
-/

/-- Identifier strings of the TypeScript/C# source, as lists of characters. -/
abbrev Str := List Char

/-- A JavaScript number that may be `NaN`: `some q` is the finite value `q`,
`none` is `NaN`. -/
abbrev JsVal := Option ℚ

/-- JavaScript addition: `NaN` propagates. -/
def jadd (a b : JsVal) : JsVal :=
  match a, b with
  | some x, some y => some (x + y)
  | _, _ => none

/-- JavaScript multiplication: `NaN` propagates (also modelling
`x * undefined = NaN`). -/
def jmul (a b : JsVal) : JsVal :=
  match a, b with
  | some x, some y => some (x * y)
  | _, _ => none

/-- The honest JavaScript strict comparison `a > b`: false whenever either
side is `NaN`. -/
def jsGtB (a b : JsVal) : Bool :=
  match a, b with
  | some x, some y => decide (y < x)
  | _, _ => false

/-- Total comparison used by the model of `sort((a,b) => key(b) - key(a))`:
like `jsGtB` but placing `NaN` below every finite value, fixing the
implementation-defined order of `NaN` keys. -/
def cmpGt (a b : JsVal) : Bool :=
  match a, b with
  | some x, some y => decide (y < x)
  | some _, none => true
  | none, _ => false

/-- One step of stable descending insertion: `x` is placed after every
existing element strictly greater than it. -/
def insertDescBy (gt : α → α → Bool) (x : α) : List α → List α
  | [] => [x]
  | y :: ys => if gt y x then y :: insertDescBy gt x ys else x :: y :: ys

/-- Stable descending sort, the model of JavaScript
`array.sort((a, b) => key(b) - key(a))` (stable since ES2019). -/
def sortDescBy (gt : α → α → Bool) (l : List α) : List α :=
  l.foldr (insertDescBy gt) []

theorem insertDescBy_ne_nil (gt : α → α → Bool) (x : α) (l : List α) :
    insertDescBy gt x l ≠ [] := by
  cases l with
  | nil => simp [insertDescBy]
  | cons y ys =>
    simp only [insertDescBy]
    split <;> simp

theorem sortDescBy_eq_nil (gt : α → α → Bool) (l : List α) :
    sortDescBy gt l = [] ↔ l = [] := by
  cases l with
  | nil => simp [sortDescBy]
  | cons x xs =>
    simp only [sortDescBy, List.foldr_cons]
    constructor
    · intro h
      exact absurd h (insertDescBy_ne_nil gt x _)
    · intro h
      exact absurd h (by simp)

theorem insertDescBy_perm (gt : α → α → Bool) (x : α) (l : List α) :
    (insertDescBy gt x l).Perm (x :: l) := by
  induction l with
  | nil => simp [insertDescBy]
  | cons y ys ih =>
    simp only [insertDescBy]
    split
    · exact (ih.cons y).trans (List.Perm.swap x y ys)
    · exact List.Perm.refl _

theorem sortDescBy_perm (gt : α → α → Bool) (l : List α) :
    (sortDescBy gt l).Perm l := by
  induction l with
  | nil => simp [sortDescBy]
  | cons x xs ih =>
    exact (insertDescBy_perm gt x (sortDescBy gt xs)).trans (ih.cons x)

/-- The head of the stable descending sort by a linearly ordered key is the
first element of the input attaining the maximal key. -/
theorem head_sortDescBy_firstMax [LinearOrder β] (f : α → β) (l : List α)
    (hne : l ≠ []) :
    ∃ b l₁ l₂, (sortDescBy (fun a c => decide (f c < f a)) l).head? = some b ∧
      l = l₁ ++ b :: l₂ ∧ (∀ c ∈ l₁, f c < f b) ∧ (∀ c ∈ l, f c ≤ f b) := by
  induction l with
  | nil => exact absurd rfl hne
  | cons x xs ih =>
    by_cases hxs : xs = []
    · subst hxs
      exact ⟨x, [], [], by simp [sortDescBy, insertDescBy], rfl, by simp, by simp⟩
    · obtain ⟨b, l₁, l₂, hb, hsplit, hlt, hle⟩ := ih hxs
      cases hsx : sortDescBy (fun a c => decide (f c < f a)) xs with
      | nil => exact absurd ((sortDescBy_eq_nil _ xs).mp hsx) hxs
      | cons s t =>
        have hsb : s = b := by
          rw [hsx] at hb
          simpa using hb
        subst hsb
        have hsort : sortDescBy (fun a c => decide (f c < f a)) (x :: xs)
            = insertDescBy (fun a c => decide (f c < f a)) x (s :: t) := by
          simp [sortDescBy, ← hsx]
        by_cases hgt : f x < f s
        · refine ⟨s, x :: l₁, l₂, ?_, by simp [hsplit], ?_, ?_⟩
          · rw [hsort]
            simp [insertDescBy, hgt]
          · intro c hc
            rcases List.mem_cons.mp hc with h | h
            · exact h ▸ hgt
            · exact hlt c h
          · intro c hc
            rcases List.mem_cons.mp hc with h | h
            · exact h ▸ le_of_lt hgt
            · exact hle c h
        · refine ⟨x, [], xs, ?_, rfl, by simp, ?_⟩
          · rw [hsort]
            simp [insertDescBy, hgt]
          · intro c hc
            rcases List.mem_cons.mp hc with h | h
            · exact h ▸ le_refl _
            · exact le_trans (hle c h) (le_of_not_lt hgt)

/-! ## Data model (`src/prototype-client/src/types.ts`) -/

/-- Polarity of a Likert item. -/
inductive Polarity
  | positive
  | reverse
deriving DecidableEq, Repr

/-- `RelatedCategory` of `types.ts`. -/
structure RelatedCategory where
  axis : Str
  category : Str
  weight : ℚ
deriving DecidableEq, Repr

/-- `Tag` of `types.ts`. -/
structure TagW where
  name : Str
  weight : ℚ
deriving DecidableEq, Repr

/-- `LikertQuestion` of `types.ts` (fields used by the core algorithms; the
optional `relatedCategories`/`tags` arrays are modelled as lists, the
source's `?? []` defaulting giving the empty list). -/
structure LikertQuestion where
  id : Str
  axis : Str
  primaryCategory : Str
  polarity : Polarity
  required : Bool
  relatedCategories : List RelatedCategory
  tags : List TagW
deriving DecidableEq, Repr

/-! ## Adaptive selector (`src/prototype-client/src/utils.ts`) -/

/-- `AxisStats` of `utils.ts`. -/
structure AxisStats where
  sum : ℚ
  count : ℕ
deriving DecidableEq, Repr

/-- `computeInformationGain` of `utils.ts`: gain is `1.0` for an axis with no
recorded observation, otherwise `|4 − average| * (1 + Σ relatedCategory
weights)`. -/
def computeInformationGain (question : LikertQuestion)
    (stats : List (Str × AxisStats)) : ℚ :=
  match stats.lookup question.axis with
  | none => 1
  | some axisState =>
    if axisState.count = 0 then 1
    else
      |4 - axisState.sum / (axisState.count : ℚ)| *
        (1 + (question.relatedCategories.map (·.weight)).sum)

/-- The comparator of `.sort((a, b) => b.info - a.info)` in
`pickNextLikertQuestion`, on precomputed information gains. -/
def gainGt (stats : List (Str × AxisStats)) (a c : LikertQuestion) : Bool :=
  decide (computeInformationGain c stats < computeInformationGain a stats)

/-- `.sort((a, b) => b.info - a.info)[0]?.question`: head of the stable
descending sort by information gain. -/
def bestByGain (stats : List (Str × AxisStats))
    (candidates : List LikertQuestion) : Option LikertQuestion :=
  (sortDescBy (gainGt stats) candidates).head?

/-- `pickNextLikertQuestion` of `utils.ts`.  The source recurses once with
`requiredOnly = false` when the required-only candidate set is empty; that
second call cannot recurse again, so the one-level fallback is inlined. -/
def pickNextLikertQuestion (questions : List LikertQuestion)
    (answers : List (Str × ℚ)) (stats : List (Str × AxisStats))
    (requiredOnly : Bool) : Option LikertQuestion :=
  if (questions.filter
      (fun q => !((answers.map Prod.fst).contains q.id) &&
        (!requiredOnly || q.required))).isEmpty && requiredOnly then
    bestByGain stats
      (questions.filter (fun q => !((answers.map Prod.fst).contains q.id)))
  else
    bestByGain stats
      (questions.filter
        (fun q => !((answers.map Prod.fst).contains q.id) &&
          (!requiredOnly || q.required)))

theorem pickNext_false_eq (questions : List LikertQuestion)
    (answers : List (Str × ℚ)) (stats : List (Str × AxisStats)) :
    pickNextLikertQuestion questions answers stats false =
      bestByGain stats
        (questions.filter
          (fun q => !((answers.map Prod.fst).contains q.id))) := by
  have hp : (fun q : LikertQuestion =>
      !((answers.map Prod.fst).contains q.id) && (!false || q.required)) =
      (fun q => !((answers.map Prod.fst).contains q.id)) := by
    funext q
    simp
  unfold pickNextLikertQuestion
  rw [hp]
  simp only [Bool.and_false]
  rw [if_neg]
  simp

theorem pickNext_true_eq_of_ne (questions : List LikertQuestion)
    (answers : List (Str × ℚ)) (stats : List (Str × AxisStats))
    (h : questions.filter
      (fun q => !((answers.map Prod.fst).contains q.id) && q.required) ≠ []) :
    pickNextLikertQuestion questions answers stats true =
      bestByGain stats
        (questions.filter
          (fun q => !((answers.map Prod.fst).contains q.id) && q.required)) := by
  have hp : (fun q : LikertQuestion =>
      !((answers.map Prod.fst).contains q.id) && (!true || q.required)) =
      (fun q => !((answers.map Prod.fst).contains q.id) && q.required) := by
    funext q
    simp
  unfold pickNextLikertQuestion
  rw [hp]
  simp only [Bool.and_true]
  rw [if_neg]
  rw [List.isEmpty_eq_false.mpr h]
  simp

theorem pickNext_true_eq_of_nil (questions : List LikertQuestion)
    (answers : List (Str × ℚ)) (stats : List (Str × AxisStats))
    (h : questions.filter
      (fun q => !((answers.map Prod.fst).contains q.id) && q.required) = []) :
    pickNextLikertQuestion questions answers stats true =
      pickNextLikertQuestion questions answers stats false := by
  have hp : (fun q : LikertQuestion =>
      !((answers.map Prod.fst).contains q.id) && (!true || q.required)) =
      (fun q => !((answers.map Prod.fst).contains q.id) && q.required) := by
    funext q
    simp
  rw [pickNext_false_eq]
  unfold pickNextLikertQuestion
  rw [hp]
  simp only [Bool.and_true]
  rw [if_pos]
  rw [List.isEmpty_iff.mpr h]

theorem bestByGain_firstMax (stats : List (Str × AxisStats))
    (l : List LikertQuestion) (h : l ≠ []) :
    ∃ b l₁ l₂, bestByGain stats l = some b ∧ l = l₁ ++ b :: l₂ ∧
      (∀ c ∈ l₁, computeInformationGain c stats < computeInformationGain b stats) ∧
      (∀ c ∈ l, computeInformationGain c stats ≤ computeInformationGain b stats) := by
  have hh := head_sortDescBy_firstMax (fun q => computeInformationGain q stats) l h
  simpa [bestByGain, gainGt] using hh

theorem bestByGain_eq_none (stats : List (Str × AxisStats))
    (l : List LikertQuestion) :
    bestByGain stats l = none ↔ l = [] := by
  rw [bestByGain, List.head?_eq_none_iff, sortDescBy_eq_nil]

/-- C6: whenever the candidate set is non-empty, `pickNextLikertQuestion`
returns the candidate with maximal information gain (gain as computed by
`computeInformationGain`); among candidates of equal gain the one earliest
in the original question list is returned. -/
theorem pickNext_returns_first_max_gain (questions : List LikertQuestion)
    (answers : List (Str × ℚ)) (stats : List (Str × AxisStats))
    (requiredOnly : Bool)
    (h : questions.filter
      (fun q => !((answers.map Prod.fst).contains q.id) &&
        (!requiredOnly || q.required)) ≠ []) :
    ∃ b l₁ l₂,
      pickNextLikertQuestion questions answers stats requiredOnly = some b ∧
      questions.filter
        (fun q => !((answers.map Prod.fst).contains q.id) &&
          (!requiredOnly || q.required)) = l₁ ++ b :: l₂ ∧
      (∀ c ∈ l₁,
        computeInformationGain c stats < computeInformationGain b stats) ∧
      (∀ c ∈ questions.filter
        (fun q => !((answers.map Prod.fst).contains q.id) &&
          (!requiredOnly || q.required)),
        computeInformationGain c stats ≤ computeInformationGain b stats) := by
  cases requiredOnly with
  | false =>
    have hp : (fun q : LikertQuestion =>
        !((answers.map Prod.fst).contains q.id) && (!false || q.required)) =
        (fun q => !((answers.map Prod.fst).contains q.id)) := by
      funext q
      simp
    rw [hp] at h ⊢
    rw [pickNext_false_eq]
    exact bestByGain_firstMax stats _ h
  | true =>
    have hp : (fun q : LikertQuestion =>
        !((answers.map Prod.fst).contains q.id) && (!true || q.required)) =
        (fun q => !((answers.map Prod.fst).contains q.id) && q.required) := by
      funext q
      simp
    rw [hp] at h ⊢
    rw [pickNext_true_eq_of_ne questions answers stats h]
    exact bestByGain_firstMax stats _ h

/-- Witness for C6 at a concrete input: two unanswered questions, empty
statistics; the candidate set is non-empty and the theorem applies. -/
theorem pickNext_returns_first_max_gain_witness :
    ∃ b l₁ l₂,
      pickNextLikertQuestion
        [⟨"L1".toList, "ax".toList, "c1".toList, Polarity.positive, true, [], []⟩,
         ⟨"L2".toList, "ax".toList, "c2".toList, Polarity.positive, false, [], []⟩]
        [] [] false = some b ∧
      ([⟨"L1".toList, "ax".toList, "c1".toList, Polarity.positive, true, [], []⟩,
        ⟨"L2".toList, "ax".toList, "c2".toList, Polarity.positive, false, [], []⟩] :
          List LikertQuestion).filter
        (fun q => !((([] : List (Str × ℚ)).map Prod.fst).contains q.id) &&
          (!false || q.required)) = l₁ ++ b :: l₂ ∧
      (∀ c ∈ l₁, computeInformationGain c [] < computeInformationGain b []) ∧
      (∀ c ∈ ([⟨"L1".toList, "ax".toList, "c1".toList, Polarity.positive, true, [], []⟩,
        ⟨"L2".toList, "ax".toList, "c2".toList, Polarity.positive, false, [], []⟩] :
          List LikertQuestion).filter
        (fun q => !((([] : List (Str × ℚ)).map Prod.fst).contains q.id) &&
          (!false || q.required)),
        computeInformationGain c [] ≤ computeInformationGain b []) :=
  pickNext_returns_first_max_gain _ _ _ _ (by decide)

/-- C5: with `requiredOnly` set and some required item unanswered the
selector returns a required unanswered item; with `requiredOnly` set and no
required item unanswered it behaves as the single retry with `requiredOnly`
unset; and it returns `none` exactly when no unanswered item exists. -/
theorem pickNext_required_first_single_fallback
    (questions : List LikertQuestion) (answers : List (Str × ℚ))
    (stats : List (Str × AxisStats)) :
    ((∃ q ∈ questions, q.required = true ∧
        (answers.map Prod.fst).contains q.id = false) →
      ∃ b, pickNextLikertQuestion questions answers stats true = some b ∧
        b ∈ questions ∧ b.required = true ∧
        (answers.map Prod.fst).contains b.id = false) ∧
    ((∀ q ∈ questions, q.required = true →
        (answers.map Prod.fst).contains q.id = true) →
      pickNextLikertQuestion questions answers stats true =
        pickNextLikertQuestion questions answers stats false) ∧
    (∀ requiredOnly,
      pickNextLikertQuestion questions answers stats requiredOnly = none ↔
      ∀ q ∈ questions, (answers.map Prod.fst).contains q.id = true) := by
  have hfalse : pickNextLikertQuestion questions answers stats false = none ↔
      ∀ q ∈ questions, (answers.map Prod.fst).contains q.id = true := by
    rw [pickNext_false_eq, bestByGain_eq_none, List.filter_eq_nil_iff]
    simp
  refine ⟨?_, ?_, ?_⟩
  · rintro ⟨q, hq, hreq, hcont⟩
    have hqmem : q ∈ questions.filter
        (fun q => !((answers.map Prod.fst).contains q.id) && q.required) := by
      rw [List.mem_filter]
      refine ⟨hq, ?_⟩
      rw [hcont, hreq]
      rfl
    have hne := List.ne_nil_of_mem hqmem
    obtain ⟨b, l₁, l₂, hb, hsplit, -, -⟩ := bestByGain_firstMax stats _ hne
    have hbmem : b ∈ questions.filter
        (fun q => !((answers.map Prod.fst).contains q.id) && q.required) := by
      rw [hsplit]
      exact List.mem_append_right _ (List.mem_cons_self b l₂)
    rw [List.mem_filter] at hbmem
    obtain ⟨hbq, hbpred⟩ := hbmem
    refine ⟨b, ?_, hbq, ?_, ?_⟩
    · rw [pickNext_true_eq_of_ne questions answers stats hne]
      exact hb
    · exact (Bool.and_eq_true _ _ ▸ hbpred).2
    · have := (Bool.and_eq_true _ _ ▸ hbpred).1
      simpa using this
  · intro hall
    apply pickNext_true_eq_of_nil
    rw [List.filter_eq_nil_iff]
    intro q hq hpred
    rw [Bool.and_eq_true] at hpred
    have hcont : (answers.map Prod.fst).contains q.id = false := by
      simpa using hpred.1
    rw [hall q hq hpred.2] at hcont
    exact absurd hcont (by decide)
  · intro requiredOnly
    cases requiredOnly with
    | false => exact hfalse
    | true =>
      by_cases hcr : questions.filter
          (fun q => !((answers.map Prod.fst).contains q.id) && q.required) = []
      · rw [pickNext_true_eq_of_nil questions answers stats hcr]
        exact hfalse
      · have hne : pickNextLikertQuestion questions answers stats true ≠ none := by
          rw [pickNext_true_eq_of_ne questions answers stats hcr]
          simp only [Ne, bestByGain_eq_none]
          exact hcr
        constructor
        · intro h
          exact absurd h hne
        · intro hall
          exfalso
          obtain ⟨q, hqmem⟩ := List.exists_mem_of_ne_nil _ hcr
          rw [List.mem_filter, Bool.and_eq_true] at hqmem
          have hcont : (answers.map Prod.fst).contains q.id = false := by
            simpa using hqmem.2.1
          rw [hall q hqmem.1] at hcont
          exact absurd hcont (by decide)

/-- Witness for C5 at concrete inputs: an unanswered required question is
returned under `requiredOnly`; with every required question answered the
two modes agree; and `none` is returned exactly on a fully answered list. -/
theorem pickNext_required_first_single_fallback_witness :
    (∃ b, pickNextLikertQuestion
        [⟨"L1".toList, "ax".toList, "c1".toList, Polarity.positive, true, [], []⟩,
         ⟨"L2".toList, "ax".toList, "c2".toList, Polarity.positive, false, [], []⟩]
        [] [] true = some b ∧
      b ∈ [⟨"L1".toList, "ax".toList, "c1".toList, Polarity.positive, true, [], []⟩,
         ⟨"L2".toList, "ax".toList, "c2".toList, Polarity.positive, false, [], []⟩] ∧
      b.required = true ∧
      ((([] : List (Str × ℚ)).map Prod.fst).contains b.id = false)) ∧
    (pickNextLikertQuestion
        [⟨"L2".toList, "ax".toList, "c2".toList, Polarity.positive, false, [], []⟩]
        [] [] true =
      pickNextLikertQuestion
        [⟨"L2".toList, "ax".toList, "c2".toList, Polarity.positive, false, [], []⟩]
        [] [] false) :=
  ⟨(pickNext_required_first_single_fallback _ [] []).1 (by decide),
   (pickNext_required_first_single_fallback _ [] []).2.1 (by decide)⟩

/-! ## Calibration analyzer (C# `ScoreOptimizer`, `ScoreAnalyzer` class) -/

/-- `ResponseRecord` of the calibration tool. -/
structure ResponseRecord where
  respondentId : Str
  itemId : Str
  value : ℚ
  responseTimeMs : Option ℚ
  confidence : Option ℚ
deriving DecidableEq, Repr

/-- `WeightedCategory` of the calibration tool (same shape as in
`types.ts`). -/
structure WeightedCategory where
  axis : Str
  category : Str
  score : ℚ
  weight : ℚ
deriving DecidableEq, Repr

/-- `LikertItem` of the calibration tool (the `Polarity` and
`RelatedCategories` fields are never consulted by the analyzer and are
omitted). -/
structure LikertItem where
  id : Str
  axis : Str
  primaryCategory : Str
deriving DecidableEq, Repr

/-- `ForcedChoiceOption` / `ScenarioOption` of the calibration tool. -/
structure OptionItem where
  key : Str
  primary : WeightedCategory
  secondary : List WeightedCategory
deriving DecidableEq, Repr

/-- `ForcedChoiceItem` / `ScenarioItem` of the calibration tool. -/
structure ChoiceItem where
  id : Str
  required : Bool
  options : List OptionItem
deriving DecidableEq, Repr

/-- `ItemSummary` of the calibration tool. -/
structure ItemSummary where
  itemId : Str
  axis : Str
  category : Str
  mean : ℚ
  variance : ℚ
  effectiveWeight : ℚ
  recommendedWeight : ℚ
  itemTotalCorrelation : Option ℚ
  averageResponseTimeMs : Option ℚ
  averageConfidence : Option ℚ
deriving DecidableEq, Repr

/-- LINQ `values.Average()`. -/
def listMean (l : List ℚ) : ℚ := l.sum / (l.length : ℚ)

/-- LINQ `xs.Where(...).Select(...).DefaultIfEmpty().Average()`: the average
over the present values, `0` when there is none (the average of the single
default element `0`). -/
def avgOrDefault (l : List ℚ) : ℚ := if l.isEmpty then 0 else listMean l

/-- The sample (Bessel-corrected) variance as computed by the analyzer:
`Σ(v − mean)² / (n − 1)`, `0` when `n ≤ 1`. -/
def sampleVariance (values : List ℚ) : ℚ :=
  if 1 < values.length then
    ((values.map (fun v => (v - listMean values) ^ 2)).sum) /
      ((values.length - 1 : ℕ) : ℚ)
  else 0

/-- `Math.Clamp`. -/
def mathClamp (value lo hi : ℚ) : ℚ :=
  if value < lo then lo else if hi < value then hi else value

/-- `CalculateTimeMultiplier` of `ScoreAnalyzer`. -/
def CalculateTimeMultiplier (averageTimeMs : Option ℚ) : ℚ :=
  match averageTimeMs with
  | none => 1
  | some v =>
    if v ≤ 0 then 1
    else if v < 1500 then 0.85
    else if v < 2500 then 0.93
    else if v < 4500 then 1
    else if v < 6500 then 1.05
    else 1.1

/-- `CalculateConfidenceMultiplier` of `ScoreAnalyzer`. -/
def CalculateConfidenceMultiplier (averageConfidence : Option ℚ) : ℚ :=
  match averageConfidence with
  | none => 1
  | some v =>
    if v < 0.3 then 0.8
    else if v < 0.5 then 0.9
    else if v < 0.7 then 1
    else if v < 0.85 then 1.05
    else 1.1

/-- `PearsonCorrelation` of `ScoreAnalyzer`.  `Math.Sqrt` has no exact
rational counterpart and is passed in as a parameter `sqrtQ`; no claim
depends on the numeric value of a correlation. -/
def PearsonCorrelation (sqrtQ : ℚ → ℚ) (xs ys : List ℚ) : Option ℚ :=
  if xs.length ≠ ys.length ∨ xs.length < 2 then none
  else
    let mx := listMean xs
    let my := listMean ys
    let numerator := ((xs.zip ys).map (fun p => (p.1 - mx) * (p.2 - my))).sum
    let sumSqX := (xs.map (fun x => (x - mx) ^ 2)).sum
    let sumSqY := (ys.map (fun y => (y - my) ^ 2)).sum
    let denominator := sqrtQ (sumSqX * sumSqY)
    if denominator = 0 then none else some (numerator / denominator)

/-- `ItemTotalCorrelation` of `ScoreAnalyzer`: respondents who answered the
item (in first-occurrence order, as LINQ `GroupBy` yields groups), paired
with the mean of their other answers; `none` under the sample-size guards. -/
def ItemTotalCorrelation (sqrtQ : ℚ → ℚ) (itemValues : List ℚ)
    (allResponses : List ResponseRecord) (itemId : Str) : Option ℚ :=
  if itemValues.length < 3 then none
  else
    let pairs := (((allResponses.filter
        (fun r => r.itemId == itemId)).map (·.respondentId)).eraseDups).filterMap
      (fun resp =>
        let mine := (allResponses.filter
          (fun r => r.itemId == itemId && r.respondentId == resp)).map (·.value)
        let totals := (allResponses.filter
          (fun r => r.respondentId == resp && r.itemId != itemId)).map (·.value)
        if totals.isEmpty then none
        else some (listMean mine, listMean totals))
    if pairs.length < 3 then none
    else PearsonCorrelation sqrtQ (pairs.map Prod.fst) (pairs.map Prod.snd)

/-- `CronbachAlpha` of `ScoreAnalyzer`. -/
def CronbachAlpha (itemVariances : List ℚ) (respondentCount : ℕ) : Option ℚ :=
  if itemVariances.length < 2 ∨ respondentCount < 2 then none
  else
    if itemVariances.sum = 0 then none
    else
      if itemVariances.sum / (itemVariances.length : ℚ) = 0 then none
      else
        some (((itemVariances.length : ℚ) / ((itemVariances.length : ℚ) - 1)) *
          (1 - itemVariances.sum /
            ((itemVariances.length : ℚ) *
              (itemVariances.sum / (itemVariances.length : ℚ)))))

/-- The per-item body of `AnalyzeLikert`: the `GroupBy`/`TryGetValue`
pattern of the source delivers, for a catalog item, exactly the records
whose `ItemId` equals the item id, and skips the item when there are
none. -/
def analyzeLikertItem (sqrtQ : ℚ → ℚ) (responses : List ResponseRecord)
    (item : LikertItem) : Option ItemSummary :=
  let records := responses.filter (fun r => r.itemId == item.id)
  if records.isEmpty then none
  else
    let values := records.map (·.value)
    let mean := listMean values
    let variance := sampleVariance values
    let correlation := ItemTotalCorrelation sqrtQ values responses item.id
    let recommendedWeight := match correlation with
      | some c => mathClamp (1 + c * 0.5) 0.4 1.6
      | none => 1
    let averageTime := avgOrDefault (records.filterMap (·.responseTimeMs))
    let averageConfidence := avgOrDefault (records.filterMap (·.confidence))
    let effectiveWeight := recommendedWeight *
      CalculateTimeMultiplier (some averageTime) *
      CalculateConfidenceMultiplier (some averageConfidence)
    some ⟨item.id, item.axis, item.primaryCategory, mean, variance,
      effectiveWeight, recommendedWeight, correlation,
      some averageTime, some averageConfidence⟩

/-- `LikertAnalysis` of the calibration tool. -/
structure LikertAnalysis where
  items : List ItemSummary
  cronbachAlphaByAxis : List (Str × Option ℚ)
deriving DecidableEq, Repr

/-- `AnalyzeLikert` of `ScoreAnalyzer`: per-item summaries followed by the
per-axis Cronbach alphas, the axis groups in first-occurrence order as
LINQ `GroupBy` yields them, with the respondent-count estimate
`Math.Max(1, responses.Count / Math.Max(groupSize, 1))`. -/
def AnalyzeLikert (sqrtQ : ℚ → ℚ) (likertItems : List LikertItem)
    (responses : List ResponseRecord) : LikertAnalysis :=
  let itemSummaries := likertItems.filterMap (analyzeLikertItem sqrtQ responses)
  let axes := (itemSummaries.map (·.axis)).eraseDups
  ⟨itemSummaries,
    axes.map (fun a =>
      let group := itemSummaries.filter (fun s => s.axis == a)
      (a, CronbachAlpha (group.map (·.variance))
        (max 1 (responses.length / max group.length 1))))⟩

/-- The shared per-option body of `AnalyzeForcedChoice` and
`AnalyzeScenario` (the two methods are verbatim duplicates except for the
predicate that pre-filters the response log before grouping by item id). -/
def analyzeOptionSummary (groupFilter : Str → Bool)
    (responses : List ResponseRecord) (itemId : Str) (opt : OptionItem) :
    Option ItemSummary :=
  let compositeId := itemId ++ [ '|' ] ++ opt.key
  let records := responses.filter
    (fun r => groupFilter r.itemId && r.itemId == compositeId)
  if records.isEmpty then none
  else
    let values := records.map (·.value)
    let mean := listMean values
    let variance := sampleVariance values
    let recommendedWeight := mathClamp
      (if 2 < variance then 1.2
       else if 1 < variance then 1
       else if 0.5 < variance then 0.8
       else 0.6) 0.5 1.4
    let averageTime := avgOrDefault (records.filterMap (·.responseTimeMs))
    let averageConfidence := avgOrDefault (records.filterMap (·.confidence))
    let effectiveWeight := recommendedWeight *
      CalculateTimeMultiplier (some averageTime) *
      CalculateConfidenceMultiplier (some averageConfidence)
    some ⟨compositeId, opt.primary.axis, opt.primary.category, mean, variance,
      effectiveWeight, recommendedWeight, none,
      some averageTime, some averageConfidence⟩

/-- `AnalyzeForcedChoice` of `ScoreAnalyzer`: the response log is
pre-filtered to ids containing the `|` separator. -/
def AnalyzeForcedChoice (responses : List ResponseRecord)
    (items : List ChoiceItem) : List ItemSummary :=
  items.flatMap (fun item =>
    item.options.filterMap
      (analyzeOptionSummary (fun s => s.contains '|') responses item.id))

/-- `AnalyzeScenario` of `ScoreAnalyzer`: the response log is pre-filtered
to ids starting with `"SC-"`. -/
def AnalyzeScenario (responses : List ResponseRecord)
    (items : List ChoiceItem) : List ItemSummary :=
  items.flatMap (fun item =>
    item.options.filterMap
      (analyzeOptionSummary (fun s => "SC-".toList.isPrefixOf s) responses
        item.id))

/-- C4: the reported Cronbach alpha is absent exactly when fewer than two
item variances back the axis, the respondent-count estimate is below two,
or the mean item variance is zero; otherwise it equals
`(k/(k−1)) · (1 − Σvᵢ/(k · mean(v)))`. -/
theorem cronbach_alpha_formula_and_definedness (vs : List ℚ) (rc : ℕ) :
    (CronbachAlpha vs rc = none ↔
      vs.length < 2 ∨ rc < 2 ∨ vs.sum / (vs.length : ℚ) = 0) ∧
    (2 ≤ vs.length → 2 ≤ rc → vs.sum / (vs.length : ℚ) ≠ 0 →
      CronbachAlpha vs rc =
        some (((vs.length : ℚ) / ((vs.length : ℚ) - 1)) *
          (1 - vs.sum /
            ((vs.length : ℚ) * (vs.sum / (vs.length : ℚ)))))) := by
  constructor
  · rw [CronbachAlpha]
    split_ifs with h1 h2 h3
    · simp only [true_iff]
      tauto
    · simp [h2]
    · simp [h3]
    · simp only [reduceCtorEq, false_iff]
      push_neg at h1 ⊢
      exact ⟨h1.1, h1.2, h3⟩
  · intro hk hrc hmean
    rw [CronbachAlpha]
    rw [if_neg (by omega : ¬(vs.length < 2 ∨ rc < 2))]
    rw [if_neg (fun h => hmean (by rw [h] ; exact zero_div _))]
    rw [if_neg hmean]

theorem cronbach_sum_div_len_ne_zero :
    ([1, 2] : List ℚ).sum / ((([1, 2] : List ℚ).length : ℚ)) ≠ 0 := by
  norm_num

/-- Witness for C4: two item variances `1, 2` and respondent count `2`. -/
theorem cronbach_alpha_formula_and_definedness_witness :
    CronbachAlpha [1, 2] 2 =
      some (((([1, 2] : List ℚ).length : ℚ) /
          ((([1, 2] : List ℚ).length : ℚ) - 1)) *
        (1 - ([1, 2] : List ℚ).sum /
          ((([1, 2] : List ℚ).length : ℚ) *
            (([1, 2] : List ℚ).sum / ((([1, 2] : List ℚ).length : ℚ)))))) :=
  (cronbach_alpha_formula_and_definedness [1, 2] 2).2 (by decide) (by decide)
    cronbach_sum_div_len_ne_zero

/-- C9: whenever the implemented Cronbach alpha is defined it is exactly `0`
in exact arithmetic: the subtracted term divides the variance sum by `k`
times the average of the same variances. -/
theorem cronbach_alpha_defined_value_is_zero (vs : List ℚ) (rc : ℕ) (a : ℚ)
    (h : CronbachAlpha vs rc = some a) : a = 0 := by
  rw [CronbachAlpha] at h
  split_ifs at h with h1 h2 h3
  have hlen : ((vs.length : ℚ)) ≠ 0 := by
    push_neg at h1
    exact Nat.cast_ne_zero.mpr (by omega)
  have hx : ((vs.length : ℚ)) * (vs.sum / ((vs.length : ℚ))) = vs.sum := by
    field_simp
  have ha := (Option.some.injEq _ _).mp h.symm
  rw [ha, hx, div_self h2, sub_self, mul_zero]

theorem cronbach_alpha_eval_example : CronbachAlpha [1, 2] 2 = some 0 := by
  norm_num [CronbachAlpha, List.sum_cons, List.sum_nil]

/-- Witness for C9: the concrete alpha over variances `1, 2` with
respondent count `2` is defined and the theorem yields `0`. -/
theorem cronbach_alpha_defined_value_is_zero_witness :
    CronbachAlpha [1, 2] 2 = some 0 ∧ (0 : ℚ) = 0 :=
  ⟨cronbach_alpha_eval_example,
    cronbach_alpha_defined_value_is_zero [1, 2] 2 0 cronbach_alpha_eval_example⟩

/-- A scenario catalog item whose id does not start with `"SC-"`. -/
def scenarioItemQ1 : ChoiceItem :=
  ⟨['Q', '1'], true, [⟨['A'], ⟨['a', 'x'], ['c', 't'], 1, 1⟩, []⟩]⟩

/-- Two response records for the composite id `"Q1|A"`. -/
def responsesQ1 : List ResponseRecord :=
  [⟨['r', '1'], ['Q', '1', '|', 'A'], 5, none, none⟩,
   ⟨['r', '2'], ['Q', '1', '|', 'A'], 3, none, none⟩]

/-- Counterexample for C3: records with `itemId = "Q1|A"` exist, yet the
scenario analyzer produces no summary at all for the option, because its
pre-filter keeps only records whose id starts with `"SC-"`. -/
theorem scenario_option_skipped_without_sc_marker :
    AnalyzeScenario responsesQ1 [scenarioItemQ1] = [] ∧
    responsesQ1.filter
      (fun r => r.itemId == ['Q', '1', '|', 'A']) ≠ [] := by
  decide

theorem filter_group_collapse (gf : Str → Bool)
    (responses : List ResponseRecord) (comp : Str) (hgf : gf comp = true) :
    responses.filter (fun r => gf r.itemId && r.itemId == comp) =
      responses.filter (fun r => r.itemId == comp) := by
  apply List.filter_congr
  intro r _
  cases heq : (r.itemId == comp) with
  | true =>
    rw [eq_of_beq heq, hgf]
    rw [Bool.true_and]
  | false =>
    rw [Bool.and_false]

theorem analyzeOptionSummary_eq_filter (gf : Str → Bool)
    (responses : List ResponseRecord) (itemId : Str) (opt : OptionItem)
    (hgf : gf (itemId ++ [ '|' ] ++ opt.key) = true)
    (hne : responses.filter
      (fun r => r.itemId == itemId ++ [ '|' ] ++ opt.key) ≠ []) :
    ∃ s, analyzeOptionSummary gf responses itemId opt = some s ∧
      s.itemId = itemId ++ [ '|' ] ++ opt.key ∧
      s.mean = listMean ((responses.filter
        (fun r => r.itemId == itemId ++ [ '|' ] ++ opt.key)).map (·.value)) ∧
      s.variance = sampleVariance ((responses.filter
        (fun r => r.itemId == itemId ++ [ '|' ] ++ opt.key)).map (·.value)) := by
  simp only [analyzeOptionSummary]
  rw [filter_group_collapse gf responses _ hgf]
  rw [if_neg (by rw [List.isEmpty_iff] ; exact hne)]
  exact ⟨_, rfl, rfl, rfl, rfl⟩

/-- C3 (amended): for a forced-choice option the per-item mean and sample
variance are those of exactly the records whose `itemId` equals the
composite id, whatever the question id looks like; for a scenario option
the same holds provided the composite id starts with `"SC-"` (otherwise
the option is skipped, see the counterexample). -/
theorem option_stats_over_composite_records
    (responses : List ResponseRecord) (items : List ChoiceItem)
    (item : ChoiceItem) (opt : OptionItem)
    (hitem : item ∈ items) (hopt : opt ∈ item.options)
    (hne : responses.filter
      (fun r => r.itemId == item.id ++ [ '|' ] ++ opt.key) ≠ []) :
    (∃ s ∈ AnalyzeForcedChoice responses items,
      s.itemId = item.id ++ [ '|' ] ++ opt.key ∧
      s.mean = listMean ((responses.filter
        (fun r => r.itemId == item.id ++ [ '|' ] ++ opt.key)).map (·.value)) ∧
      s.variance = sampleVariance ((responses.filter
        (fun r => r.itemId == item.id ++ [ '|' ] ++ opt.key)).map (·.value))) ∧
    ("SC-".toList.isPrefixOf (item.id ++ [ '|' ] ++ opt.key) = true →
      ∃ s ∈ AnalyzeScenario responses items,
        s.itemId = item.id ++ [ '|' ] ++ opt.key ∧
        s.mean = listMean ((responses.filter
          (fun r => r.itemId == item.id ++ [ '|' ] ++ opt.key)).map (·.value)) ∧
        s.variance = sampleVariance ((responses.filter
          (fun r => r.itemId == item.id ++ [ '|' ] ++ opt.key)).map (·.value))) := by
  constructor
  · obtain ⟨s, hs, hid, hmean, hvar⟩ :=
      analyzeOptionSummary_eq_filter (fun s => s.contains '|') responses
        item.id opt (by simp) hne
    refine ⟨s, ?_, hid, hmean, hvar⟩
    rw [AnalyzeForcedChoice, List.mem_flatMap]
    exact ⟨item, hitem, List.mem_filterMap.mpr ⟨opt, hopt, hs⟩⟩
  · intro hpre
    obtain ⟨s, hs, hid, hmean, hvar⟩ :=
      analyzeOptionSummary_eq_filter (fun s => "SC-".toList.isPrefixOf s)
        responses item.id opt hpre hne
    refine ⟨s, ?_, hid, hmean, hvar⟩
    rw [AnalyzeScenario, List.mem_flatMap]
    exact ⟨item, hitem, List.mem_filterMap.mpr ⟨opt, hopt, hs⟩⟩

/-- A scenario/forced-choice catalog item whose id does start with
`"SC-"`. -/
def choiceItemSC1 : ChoiceItem :=
  ⟨['S', 'C', '-', '1'], true, [⟨['A'], ⟨['a', 'x'], ['c', 't'], 1, 1⟩, []⟩]⟩

/-- Response records for the composite id `"SC-1|A"`. -/
def responsesSC1 : List ResponseRecord :=
  [⟨['r', '1'], ['S', 'C', '-', '1', '|', 'A'], 5, none, none⟩,
   ⟨['r', '2'], ['S', 'C', '-', '1', '|', 'A'], 3, none, none⟩]

/-- Witness for the amended C3 at a concrete catalog and response log. -/
theorem option_stats_over_composite_records_witness :
    (∃ s ∈ AnalyzeForcedChoice responsesSC1 [choiceItemSC1],
      s.itemId = choiceItemSC1.id ++ [ '|' ] ++
        (⟨['A'], ⟨['a', 'x'], ['c', 't'], 1, 1⟩, []⟩ : OptionItem).key ∧
      s.mean = listMean ((responsesSC1.filter
        (fun r => r.itemId == choiceItemSC1.id ++ [ '|' ] ++
          (⟨['A'], ⟨['a', 'x'], ['c', 't'], 1, 1⟩, []⟩ : OptionItem).key)).map
            (·.value)) ∧
      s.variance = sampleVariance ((responsesSC1.filter
        (fun r => r.itemId == choiceItemSC1.id ++ [ '|' ] ++
          (⟨['A'], ⟨['a', 'x'], ['c', 't'], 1, 1⟩, []⟩ : OptionItem).key)).map
            (·.value))) ∧
    ("SC-".toList.isPrefixOf (choiceItemSC1.id ++ [ '|' ] ++
        (⟨['A'], ⟨['a', 'x'], ['c', 't'], 1, 1⟩, []⟩ : OptionItem).key) = true →
      ∃ s ∈ AnalyzeScenario responsesSC1 [choiceItemSC1],
        s.itemId = choiceItemSC1.id ++ [ '|' ] ++
          (⟨['A'], ⟨['a', 'x'], ['c', 't'], 1, 1⟩, []⟩ : OptionItem).key ∧
        s.mean = listMean ((responsesSC1.filter
          (fun r => r.itemId == choiceItemSC1.id ++ [ '|' ] ++
            (⟨['A'], ⟨['a', 'x'], ['c', 't'], 1, 1⟩, []⟩ : OptionItem).key)).map
              (·.value)) ∧
        s.variance = sampleVariance ((responsesSC1.filter
          (fun r => r.itemId == choiceItemSC1.id ++ [ '|' ] ++
            (⟨['A'], ⟨['a', 'x'], ['c', 't'], 1, 1⟩, []⟩ : OptionItem).key)).map
              (·.value))) :=
  option_stats_over_composite_records responsesSC1 [choiceItemSC1]
    choiceItemSC1 ⟨['A'], ⟨['a', 'x'], ['c', 't'], 1, 1⟩, []⟩
    (List.Mem.head []) (List.Mem.head []) (by decide)

/-- A Likert catalog item and a response log in which no record carries a
confidence value. -/
def likertItemL1 : LikertItem := ⟨['L', '1'], ['a', 'x'], ['c', 't']⟩

/-- Records for `"L1"` with absent response times and absent confidence. -/
def responsesL1 : List ResponseRecord :=
  [⟨['r', '1'], ['L', '1'], 5, none, none⟩,
   ⟨['r', '2'], ['L', '1'], 3, none, none⟩]

/-- C2 failing input: no record carries a confidence value, and
`CalculateConfidenceMultiplier` itself maps absent confidence to `1.0`;
yet the analyzer pipeline averages the empty confidence list with
`DefaultIfEmpty()` to `0`, lands in the `< 0.3` bucket, and produces the
effective weight `recommendedWeight × 1 × 0.8` instead of
`recommendedWeight × 1 × 1`. -/
theorem confidence_multiplier_absent_defaults_to_low_bucket :
    (∀ r ∈ responsesL1, r.confidence = none) ∧
    CalculateConfidenceMultiplier none = 1 ∧
    (AnalyzeLikert (fun _ => 0) [likertItemL1] responsesL1).items.map
      (fun s => (s.recommendedWeight, s.effectiveWeight)) = [(1, 0.8)] := by
  refine ⟨by decide, rfl, ?_⟩
  norm_num [AnalyzeLikert, analyzeLikertItem, responsesL1, likertItemL1,
    ItemTotalCorrelation, CalculateTimeMultiplier, CalculateConfidenceMultiplier,
    avgOrDefault, listMean, sampleVariance, List.filter, List.filterMap]

/-! ## Weight applier (C# `ScoreOptimizer`, `WeightApplier` class) -/

/-- The `primary` JSON object of a persisted option; an absent `weight`
field makes the current weight default to `1.0`. -/
structure PrimaryNode where
  weight : Option ℚ
deriving DecidableEq, Repr

/-- A persisted option JSON object: `key` and an optional `primary`
object (navigation failures are skips in the source). -/
structure OptionNode where
  key : Str
  primary : Option PrimaryNode
deriving DecidableEq, Repr

/-- A persisted question JSON object of the `items` array. -/
structure ItemNode where
  id : Str
  options : List OptionNode
deriving DecidableEq, Repr

/-- The current weight `primary["weight"] ?? 1.0` reached by the
`FirstOrDefault` navigation chain of `ApplyToFile`; `none` when any stage
of the chain fails (those summaries are skipped). -/
def currentWeightOf (items : List ItemNode) (qid key : Str) : Option ℚ :=
  match items.find? (fun it => it.id == qid) with
  | none => none
  | some it =>
    match it.options.find? (fun o => o.key == key) with
    | none => none
    | some o =>
      match o.primary with
      | none => none
      | some p => some (p.weight.getD 1)

/-- In-place mutation of the first matching option node of the first
matching item node (the `FirstOrDefault` references of the source). -/
def setOptionWeight (options : List OptionNode) (key : Str) (w : ℚ) :
    List OptionNode :=
  match options with
  | [] => []
  | o :: rest =>
    if o.key == key then
      { o with primary := o.primary.map (fun p => { p with weight := some w }) } :: rest
    else o :: setOptionWeight rest key w

/-- In-place mutation of `primary.weight` of the located option. -/
def setItemWeight (items : List ItemNode) (qid key : Str) (w : ℚ) :
    List ItemNode :=
  match items with
  | [] => []
  | it :: rest =>
    if it.id == qid then
      { it with options := setOptionWeight it.options key w } :: rest
    else it :: setItemWeight rest qid key w

/-- The per-summary body of the `foreach` loop of
`WeightApplier.ApplyToFile`: split the composite id, locate the option,
skip when the delta is inside the tolerance, otherwise write the
recommended weight and count the update. -/
def applyStep (tolerance : ℚ) (st : List ItemNode × ℕ)
    (summary : ItemSummary) : List ItemNode × ℕ :=
  match summary.itemId.splitOn '|' with
  | [qid, key] =>
    match currentWeightOf st.1 qid key with
    | none => st
    | some currentWeight =>
      if |currentWeight - summary.recommendedWeight| < tolerance then st
      else (setItemWeight st.1 qid key summary.recommendedWeight, st.2 + 1)
  | _ => st

/-- `WeightApplier.ApplyToFile`: fold the loop body over the summaries,
returning the rewritten `items` array and the update count. -/
def ApplyToFile (items : List ItemNode) (summaries : List ItemSummary)
    (tolerance : ℚ) : List ItemNode × ℕ :=
  summaries.foldl (applyStep tolerance) (items, 0)

/-- A persisted catalog with one item `"Q1"` holding one option `"A"` with
`primary.weight = 1.0`. -/
def itemsQ1A : List ItemNode := [⟨['Q', '1'], [⟨['A'], some ⟨some 1⟩⟩]⟩]

/-- An analyzer summary for the composite id `"Q1|A"` with the given
recommended weight (the other fields are not consulted by the applier). -/
def summaryWith (rec : ℚ) : ItemSummary :=
  ⟨['Q', '1', '|', 'A'], [], [], 0, 0, 0, rec, none, none, none⟩

theorem abs_delta_small : |(1 : ℚ) - 1.03| < 0.05 := by
  rw [abs_sub_comm, abs_of_nonneg (by norm_num)]
  norm_num

theorem abs_delta_large : ¬(|(1 : ℚ) - 1.10| < 0.05) := by
  rw [abs_sub_comm, abs_of_nonneg (by norm_num)]
  norm_num

/-- C7: a summary whose recommended weight differs from the located current
weight by strictly less than the tolerance changes neither the persisted
items nor the update count; with the default tolerance `0.05`, a current
weight `1.0` and recommendation `1.03` produce no update, while `1.10`
rewrites the weight and increments the count by `1`. -/
theorem weight_applier_tolerance_gating :
    (∀ (tolerance : ℚ) (items : List ItemNode) (n : ℕ) (s : ItemSummary)
      (qid key : Str) (cur : ℚ),
      s.itemId.splitOn '|' = [qid, key] →
      currentWeightOf items qid key = some cur →
      |cur - s.recommendedWeight| < tolerance →
      applyStep tolerance (items, n) s = (items, n)) ∧
    ApplyToFile itemsQ1A [summaryWith 1.03] 0.05 = (itemsQ1A, 0) ∧
    ApplyToFile itemsQ1A [summaryWith 1.10] 0.05 =
      ([⟨['Q', '1'], [⟨['A'], some ⟨some 1.10⟩⟩]⟩], 1) := by
  have hsplit : ∀ r : ℚ, (summaryWith r).itemId.splitOn '|' =
      [['Q', '1'], ['A']] := fun _ => rfl
  have hcw : currentWeightOf itemsQ1A ['Q', '1'] ['A'] = some 1 := rfl
  refine ⟨?_, ?_, ?_⟩
  · intro tolerance items n s qid key cur h1 h2 h3
    simp only [applyStep, h1, h2, if_pos h3]
  · simp only [ApplyToFile, List.foldl_cons, List.foldl_nil, applyStep,
      hsplit, hcw]
    rw [if_pos (by simpa [summaryWith] using abs_delta_small)]
  · simp only [ApplyToFile, List.foldl_cons, List.foldl_nil, applyStep,
      hsplit, hcw]
    rw [if_neg (by simpa [summaryWith] using abs_delta_large)]
    simp [setItemWeight, setOptionWeight, itemsQ1A, summaryWith]

/-- Witness for C7: the gating clause applied at the concrete catalog,
summary `1.03` and tolerance `0.05`. -/
theorem weight_applier_tolerance_gating_witness :
    applyStep 0.05 (itemsQ1A, 0) (summaryWith 1.03) = (itemsQ1A, 0) :=
  weight_applier_tolerance_gating.1 0.05 itemsQ1A 0 (summaryWith 1.03)
    ['Q', '1'] ['A'] 1 (by decide) rfl
    (by simpa [summaryWith] using abs_delta_small)

/-! ## Response aggregator (`src/prototype-client/src/main.tsx`) -/

/-- `ForcedChoiceOption` / `ScenarioOption` of `types.ts` (label omitted;
optional `secondary`/`tags` default to the empty list as with `?? []`). -/
structure QOption where
  key : Str
  primary : WeightedCategory
  secondary : List WeightedCategory
  tags : List TagW
deriving DecidableEq, Repr

/-- `ForcedChoiceQuestion` / `ScenarioQuestion` of `types.ts` (fields used
by the aggregator). -/
structure ChoiceQuestion where
  id : Str
  options : List QOption
deriving DecidableEq, Repr

/-- `QuestionBank` of `types.ts`. -/
structure QuestionBank where
  likert : List LikertQuestion
  forcedChoice : List ChoiceQuestion
  scenario : List ChoiceQuestion
deriving DecidableEq, Repr

/-- A forced-choice answer state (`optionKey`, `confidence`); the answer
map is keyed by the composite string `"{questionId}|{optionKey}"`. -/
structure ForcedAnswerState where
  optionKey : Str
  confidence : ℚ
deriving DecidableEq, Repr

/-- `value` if the polarity is positive, `8 − value` for reverse items. -/
def normalizedValue (q : LikertQuestion) (v : ℚ) : ℚ :=
  match q.polarity with
  | Polarity.reverse => 8 - v
  | Polarity.positive => v

/-- `scores.set(key, (scores.get(key) ?? 0) + value)` on the
insertion-ordered score map. -/
def addScoreV (m : List (Str × JsVal)) (key : Str) (v : JsVal) :
    List (Str × JsVal) :=
  match m with
  | [] => [(key, jadd (some 0) v)]
  | (k, s) :: rest =>
    if k == key then (k, jadd s v) :: rest
    else (k, s) :: addScoreV rest key v

/-- `weights[index]` for `weights = [1.0, 0.5, 0.25]`: `undefined` (hence
`NaN` after multiplication) from rank position 3 on. -/
def scenarioRankWeight (index : ℕ) : JsVal :=
  [(1 : ℚ), 0.5, 0.25].get? index

/-- The `categoryScore` memo of `main.tsx`: fold the Likert, forced-choice
and scenario answers into the per-category map, then sort descending by
accumulated score. -/
def categoryScore (qb : QuestionBank) (likertAnswers : List (Str × ℚ))
    (forcedAnswers : List (Str × ForcedAnswerState))
    (scenarioAnswers : List (Str × List Str)) : List (Str × JsVal) :=
  let m : List (Str × JsVal) := []
  let m := likertAnswers.foldl (fun m entry =>
    match qb.likert.find? (fun q => q.id == entry.1) with
    | none => m
    | some question =>
      let normalized := normalizedValue question entry.2
      let m := addScoreV m question.primaryCategory (some normalized)
      question.relatedCategories.foldl (fun m rel =>
        addScoreV m rel.category (some (normalized * rel.weight))) m) m
  let m := forcedAnswers.foldl (fun m entry =>
    if entry.2.optionKey == "SKIP".toList then m
    else
      match qb.forcedChoice.find?
        (fun q => q.id == (entry.1.splitOn '|').headD []) with
      | none => m
      | some question =>
        match question.options.find? (fun o => o.key == entry.2.optionKey) with
        | none => m
        | some opt =>
          let m := addScoreV m opt.primary.category
            (some (opt.primary.score * opt.primary.weight * entry.2.confidence))
          opt.secondary.foldl (fun m sec =>
            addScoreV m sec.category
              (some (sec.score * sec.weight * entry.2.confidence))) m) m
  let m := scenarioAnswers.foldl (fun m entry =>
    match qb.scenario.find? (fun q => q.id == entry.1) with
    | none => m
    | some question =>
      (entry.2.enum).foldl (fun m rk =>
        match question.options.find? (fun o => o.key == rk.2) with
        | none => m
        | some opt =>
          let rankWeight := scenarioRankWeight rk.1
          let m := addScoreV m opt.primary.category
            (jmul (some (opt.primary.score * opt.primary.weight)) rankWeight)
          opt.secondary.foldl (fun m sec =>
            addScoreV m sec.category
              (jmul (some (sec.score * sec.weight)) rankWeight)) m) m) m
  sortDescBy (fun a b => cmpGt a.2 b.2) m

/-- The hard-coded aptitude axis filter `axis === 'activity' ||
axis === 'learning_style'`. -/
def isAptitudeAxis (axis : Str) : Bool :=
  axis == "activity".toList || axis == "learning_style".toList

/-- The `aptitudeScores` memo of `main.tsx`: the same aggregation
restricted to contributions whose axis passes `isAptitudeAxis`. -/
def aptitudeScores (qb : QuestionBank) (likertAnswers : List (Str × ℚ))
    (forcedAnswers : List (Str × ForcedAnswerState))
    (scenarioAnswers : List (Str × List Str)) : List (Str × JsVal) :=
  let m : List (Str × JsVal) := []
  let m := likertAnswers.foldl (fun m entry =>
    match qb.likert.find? (fun q => q.id == entry.1) with
    | none => m
    | some question =>
      let m := if isAptitudeAxis question.axis then
          addScoreV m question.primaryCategory
            (some (normalizedValue question entry.2))
        else m
      question.relatedCategories.foldl (fun m rel =>
        if isAptitudeAxis rel.axis then
          addScoreV m rel.category (some (normalizedValue question entry.2 * rel.weight))
        else m) m) m
  let m := forcedAnswers.foldl (fun m entry =>
    if entry.2.optionKey == "SKIP".toList then m
    else
      match qb.forcedChoice.find?
        (fun q => q.id == (entry.1.splitOn '|').headD []) with
      | none => m
      | some question =>
        match question.options.find? (fun o => o.key == entry.2.optionKey) with
        | none => m
        | some opt =>
          let m := if isAptitudeAxis opt.primary.axis then
              addScoreV m opt.primary.category
                (some (opt.primary.score * opt.primary.weight * entry.2.confidence))
            else m
          opt.secondary.foldl (fun m sec =>
            if isAptitudeAxis sec.axis then
              addScoreV m sec.category
                (some (sec.score * sec.weight * entry.2.confidence))
            else m) m) m
  let m := scenarioAnswers.foldl (fun m entry =>
    match qb.scenario.find? (fun q => q.id == entry.1) with
    | none => m
    | some question =>
      (entry.2.enum).foldl (fun m rk =>
        match question.options.find? (fun o => o.key == rk.2) with
        | none => m
        | some opt =>
          let rankWeight := scenarioRankWeight rk.1
          let m := if isAptitudeAxis opt.primary.axis then
              addScoreV m opt.primary.category
                (jmul (some (opt.primary.score * opt.primary.weight)) rankWeight)
            else m
          opt.secondary.foldl (fun m sec =>
            if isAptitudeAxis sec.axis then
              addScoreV m sec.category
                (jmul (some (sec.score * sec.weight)) rankWeight)
            else m) m) m) m
  sortDescBy (fun a b => cmpGt a.2 b.2) m

/-- The per-tag accumulator entry of the `tagScores` memo. -/
structure TagEntry where
  score : JsVal
  questions : List Str
deriving DecidableEq, Repr

/-- `addScore` of the `tagScores` memo: create the entry on first use, add
the value, and push the question id unless it is already recorded. -/
def addTagScore (m : List (Str × TagEntry)) (key : Str) (v : JsVal)
    (qid : Str) : List (Str × TagEntry) :=
  match m with
  | [] => [(key, ⟨jadd (some 0) v, [qid]⟩)]
  | (k, e) :: rest =>
    if k == key then
      (k, ⟨jadd e.score v,
        if e.questions.contains qid then e.questions
        else e.questions ++ [qid]⟩) :: rest
    else (k, e) :: addTagScore rest key v qid

/-- The accumulation phase of the `tagScores` memo of `main.tsx`: the
`scores` map after all three answer folds, before sorting. -/
def tagScoreAccum (qb : QuestionBank) (likertAnswers : List (Str × ℚ))
    (forcedAnswers : List (Str × ForcedAnswerState))
    (scenarioAnswers : List (Str × List Str)) : List (Str × TagEntry) :=
  let m : List (Str × TagEntry) := []
  let m := likertAnswers.foldl (fun m entry =>
    match qb.likert.find? (fun q => q.id == entry.1) with
    | none => m
    | some question =>
      question.tags.foldl (fun m tag =>
        addTagScore m tag.name
          (some (normalizedValue question entry.2 * tag.weight)) entry.1) m) m
  let m := forcedAnswers.foldl (fun m entry =>
    if entry.2.optionKey == "SKIP".toList then m
    else
      match qb.forcedChoice.find?
        (fun q => q.id == (entry.1.splitOn '|').headD []) with
      | none => m
      | some question =>
        match question.options.find? (fun o => o.key == entry.2.optionKey) with
        | none => m
        | some opt =>
          opt.tags.foldl (fun m tag =>
            addTagScore m tag.name
              (some (opt.primary.score * opt.primary.weight *
                entry.2.confidence * tag.weight))
              ((entry.1.splitOn '|').headD [])) m) m
  let m := scenarioAnswers.foldl (fun m entry =>
    match qb.scenario.find? (fun q => q.id == entry.1) with
    | none => m
    | some question =>
      (entry.2.enum).foldl (fun m rk =>
        match question.options.find? (fun o => o.key == rk.2) with
        | none => m
        | some opt =>
          opt.tags.foldl (fun m tag =>
            addTagScore m tag.name
              (jmul (jmul (some (opt.primary.score * opt.primary.weight))
                (scenarioRankWeight rk.1)) (some tag.weight)) entry.1) m) m) m
  m

/-- The `tagScores` memo of `main.tsx`: accumulate tag-weighted scores with
contributing question ids, sort descending by score, keep the first 10. -/
def tagScores (qb : QuestionBank) (likertAnswers : List (Str × ℚ))
    (forcedAnswers : List (Str × ForcedAnswerState))
    (scenarioAnswers : List (Str × List Str)) : List (Str × TagEntry) :=
  (sortDescBy (fun a b => cmpGt a.2.score b.2.score)
    (tagScoreAccum qb likertAnswers forcedAnswers scenarioAnswers)).take 10

/-- JavaScript string comparison `a < b` (lexicographic). -/
def lexLt : Str → Str → Bool
  | [], [] => false
  | [], _ :: _ => true
  | _ :: _, [] => false
  | a :: as, b :: bs =>
    if a < b then true else if b < a then false else lexLt as bs

/-- `matrix[key1][key2]++` on the inner object (insertion-ordered). -/
def bumpInner (inner : List (Str × ℕ)) (k : Str) : List (Str × ℕ) :=
  match inner with
  | [] => [(k, 1)]
  | (k2, n) :: rest =>
    if k2 == k then (k2, n + 1) :: rest else (k2, n) :: bumpInner rest k

/-- `matrix[key1][key2]++` on the outer object (insertion-ordered). -/
def bumpOuter (m : List (Str × List (Str × ℕ))) (k1 k2 : Str) :
    List (Str × List (Str × ℕ)) :=
  match m with
  | [] => [(k1, [(k2, 1)])]
  | (k, inner) :: rest =>
    if k == k1 then (k, bumpInner inner k2) :: rest
    else (k, inner) :: bumpOuter rest k1 k2

/-- `increment` of the `cooccurrenceData` memo: count the pair only when
both categories are in the top set and differ, keyed with the
lexicographically smaller category first. -/
def incrementPair (top : List Str) (m : List (Str × List (Str × ℕ)))
    (cat1 cat2 : Str) : List (Str × List (Str × ℕ)) :=
  if top.contains cat1 && top.contains cat2 && cat1 != cat2 then
    if lexLt cat1 cat2 then bumpOuter m cat1 cat2 else bumpOuter m cat2 cat1
  else m

/-- All index pairs `i < j` of a category list, as the double loop of the
source enumerates them. -/
def pairsOf : List Str → List (Str × Str)
  | [] => []
  | a :: rest => rest.map (fun b => (a, b)) ++ pairsOf rest

/-- The category set of a Likert question: primary plus related. -/
def likertCategories (q : LikertQuestion) : List Str :=
  q.primaryCategory :: q.relatedCategories.map (·.category)

/-- The category set of a forced-choice/scenario option: primary plus
secondary. -/
def optionCategories (o : QOption) : List Str :=
  o.primary.category :: o.secondary.map (·.category)

/-- A flattened co-occurrence triple `{x, y, z}`. -/
structure CoEntry where
  x : Str
  y : Str
  z : ℕ
deriving DecidableEq, Repr

/-- The `cooccurrenceData` memo of `main.tsx`: the top set is the key list
of the computed `categoryScore`; every question contributes all pairs of
its category set; the nested counter object is flattened to triples. -/
def cooccurrenceData (qb : QuestionBank) (catScores : List (Str × JsVal)) :
    List CoEntry :=
  if catScores.isEmpty then []
  else
    let top := catScores.map Prod.fst
    let m : List (Str × List (Str × ℕ)) := []
    let m := qb.likert.foldl (fun m q =>
      (pairsOf (likertCategories q)).foldl
        (fun m p => incrementPair top m p.1 p.2) m) m
    let m := qb.forcedChoice.foldl (fun m q =>
      q.options.foldl (fun m o =>
        (pairsOf (optionCategories o)).foldl
          (fun m p => incrementPair top m p.1 p.2) m) m) m
    let m := qb.scenario.foldl (fun m q =>
      q.options.foldl (fun m o =>
        (pairsOf (optionCategories o)).foldl
          (fun m p => incrementPair top m p.1 p.2) m) m) m
    m.flatMap (fun kv => kv.2.map (fun kn => ⟨kv.1, kn.1, kn.2⟩))

/-- A scenario option with primary `{axis: "activity", category, score 4,
weight 1}` and one tag of weight 1. -/
def scnOption (key cat tag : Str) : QOption :=
  ⟨key, ⟨"activity".toList, cat, 4, 1⟩, [], [⟨tag, 1⟩]⟩

/-- A question bank with one scenario question of four options. -/
def qbScn4 : QuestionBank :=
  ⟨[], [],
   [⟨['S', '1'],
     [scnOption ['A'] ['c', 'a'] ['t', 'a'],
      scnOption ['B'] ['c', 'b'] ['t', 'b'],
      scnOption ['C'] ['c', 'c'] ['t', 'c'],
      scnOption ['D'] ['c', 'd'] ['t', 'd']]⟩]⟩

/-- A ranking of all four options. -/
def scnAnswers4 : List (Str × List Str) :=
  [(['S', '1'], [['A'], ['B'], ['C'], ['D']])]

set_option maxHeartbeats 1000000 in
theorem categoryScore_qbScn4_eval :
    categoryScore qbScn4 [] [] scnAnswers4 =
      [(['c', 'a'], some 4), (['c', 'b'], some 2),
       (['c', 'c'], some 1), (['c', 'd'], none)] := by
  have h0 : categoryScore qbScn4 [] [] scnAnswers4 =
      sortDescBy (fun a b => cmpGt a.2 b.2)
        [(['c', 'a'], some (0 + 4 * 1 * 1)),
         (['c', 'b'], some (0 + 4 * 1 * 0.5)),
         (['c', 'c'], some (0 + 4 * 1 * 0.25)),
         (['c', 'd'], none)] := rfl
  rw [h0]
  norm_num [sortDescBy, insertDescBy, cmpGt]

set_option maxHeartbeats 1000000 in
theorem aptitudeScores_qbScn4_eval :
    aptitudeScores qbScn4 [] [] scnAnswers4 =
      [(['c', 'a'], some 4), (['c', 'b'], some 2),
       (['c', 'c'], some 1), (['c', 'd'], none)] := by
  have h0 : aptitudeScores qbScn4 [] [] scnAnswers4 =
      sortDescBy (fun a b => cmpGt a.2 b.2)
        [(['c', 'a'], some (0 + 4 * 1 * 1)),
         (['c', 'b'], some (0 + 4 * 1 * 0.5)),
         (['c', 'c'], some (0 + 4 * 1 * 0.25)),
         (['c', 'd'], none)] := rfl
  rw [h0]
  norm_num [sortDescBy, insertDescBy, cmpGt]

set_option maxHeartbeats 1000000 in
theorem tagScores_qbScn4_eval :
    (tagScores qbScn4 [] [] scnAnswers4).map (fun e => (e.1, e.2.score)) =
      [(['t', 'a'], some 4), (['t', 'b'], some 2),
       (['t', 'c'], some 1), (['t', 'd'], none)] := by
  have h0 : tagScores qbScn4 [] [] scnAnswers4 =
      (sortDescBy (fun a b => cmpGt a.2.score b.2.score)
        [(['t', 'a'], ⟨some (0 + 4 * 1 * 1 * 1), [['S', '1']]⟩),
         (['t', 'b'], ⟨some (0 + 4 * 1 * 0.5 * 1), [['S', '1']]⟩),
         (['t', 'c'], ⟨some (0 + 4 * 1 * 0.25 * 1), [['S', '1']]⟩),
         (['t', 'd'], ⟨none, [['S', '1']]⟩)]).take 10 := rfl
  rw [h0]
  norm_num [sortDescBy, insertDescBy, cmpGt]

/-- C1 failing input: the per-rank weights at positions 0, 1, 2 are `1.0`,
`0.5`, `0.25` as claimed, but at rank position 3 `weights[3]` is
`undefined`, so the fourth-ranked option drives its category, aptitude and
tag scores to `NaN` (modelled as `none`) instead of contributing zero. -/
theorem scenario_rank_weights_and_nan_beyond_rank_three :
    scenarioRankWeight 0 = some 1 ∧
    scenarioRankWeight 1 = some 0.5 ∧
    scenarioRankWeight 2 = some 0.25 ∧
    scenarioRankWeight 3 = none ∧
    categoryScore qbScn4 [] [] scnAnswers4 =
      [(['c', 'a'], some 4), (['c', 'b'], some 2),
       (['c', 'c'], some 1), (['c', 'd'], none)] ∧
    aptitudeScores qbScn4 [] [] scnAnswers4 =
      [(['c', 'a'], some 4), (['c', 'b'], some 2),
       (['c', 'c'], some 1), (['c', 'd'], none)] ∧
    (tagScores qbScn4 [] [] scnAnswers4).map (fun e => (e.1, e.2.score)) =
      [(['t', 'a'], some 4), (['t', 'b'], some 2),
       (['t', 'c'], some 1), (['t', 'd'], none)] :=
  ⟨rfl, rfl, rfl, rfl, categoryScore_qbScn4_eval, aptitudeScores_qbScn4_eval,
    tagScores_qbScn4_eval⟩

theorem lexLt_irrefl (a : Str) : lexLt a a = false := by
  induction a with
  | nil => rfl
  | cons x xs ih => simp [lexLt, ih]

theorem lexLt_ne {a b : Str} (h : lexLt a b = true) : a ≠ b := by
  intro heq
  subst heq
  rw [lexLt_irrefl] at h
  exact absurd h (by decide)

theorem lexLt_connex (a : Str) : ∀ b : Str, a ≠ b →
    lexLt a b = true ∨ lexLt b a = true := by
  induction a with
  | nil =>
    intro b hne
    cases b with
    | nil => exact absurd rfl hne
    | cons y ys => exact Or.inl rfl
  | cons x xs ih =>
    intro b hne
    cases b with
    | nil => exact Or.inr rfl
    | cons y ys =>
      rcases lt_trichotomy x y with hlt | heq | hgt
      · exact Or.inl (by simp [lexLt, hlt])
      · subst heq
        have hne' : xs ≠ ys := fun h => hne (by rw [h])
        rcases ih ys hne' with h | h
        · exact Or.inl (by simp [lexLt, lt_irrefl, h])
        · exact Or.inr (by simp [lexLt, lt_irrefl, h])
      · exact Or.inr (by simp [lexLt, hgt])

/-- Invariant of the nested co-occurrence counter object: outer keys are
distinct, inner keys are distinct, and every stored pair is canonical
(lexicographically increasing) with both components in the top set. -/
def MatrixInv (top : List Str) (m : List (Str × List (Str × ℕ))) : Prop :=
  (m.map Prod.fst).Nodup ∧
  ∀ p ∈ m, (p.2.map Prod.fst).Nodup ∧
    ∀ q ∈ p.2, p.1 ∈ top ∧ q.1 ∈ top ∧ lexLt p.1 q.1 = true

theorem bumpInner_key_mem (k : Str) :
    ∀ (inner : List (Str × ℕ)), ∀ q ∈ bumpInner inner k,
      q.1 ∈ inner.map Prod.fst ∨ q.1 = k := by
  intro inner
  induction inner with
  | nil =>
    intro q hq
    simp only [bumpInner, List.mem_singleton] at hq
    exact Or.inr (by rw [hq])
  | cons hd rest ih =>
    intro q hq
    obtain ⟨k2, n⟩ := hd
    simp only [bumpInner] at hq
    by_cases hbeq : (k2 == k) = true
    · rw [if_pos hbeq] at hq
      rcases List.mem_cons.mp hq with h | h
      · exact Or.inl (by rw [h] ; simp)
      · exact Or.inl (by simp ; exact Or.inr ⟨q.2, by rw [Prod.mk.eta] ; exact h⟩)
    · rw [if_neg hbeq] at hq
      rcases List.mem_cons.mp hq with h | h
      · exact Or.inl (by rw [h] ; simp)
      · rcases ih q h with h2 | h2
        · exact Or.inl (by simp at h2 ⊢ ; exact Or.inr h2)
        · exact Or.inr h2

theorem bumpInner_keys_nodup (k : Str) :
    ∀ (inner : List (Str × ℕ)), (inner.map Prod.fst).Nodup →
      ((bumpInner inner k).map Prod.fst).Nodup := by
  intro inner
  induction inner with
  | nil =>
    intro _
    simp [bumpInner]
  | cons hd rest ih =>
    intro h
    obtain ⟨k2, n⟩ := hd
    simp only [bumpInner]
    rw [List.map_cons] at h
    obtain ⟨hnot, hrest⟩ := List.nodup_cons.mp h
    by_cases hbeq : (k2 == k) = true
    · rw [if_pos hbeq]
      exact List.nodup_cons.mpr ⟨hnot, hrest⟩
    · rw [if_neg hbeq]
      rw [List.map_cons]
      refine List.nodup_cons.mpr ⟨?_, ih hrest⟩
      intro hmem
      rcases List.mem_map.mp hmem with ⟨q, hq, hq1⟩
      rcases bumpInner_key_mem k rest q hq with h2 | h2
      · exact hnot (hq1 ▸ h2)
      · exact hbeq (beq_iff_eq.mpr (hq1.symm.trans h2))

theorem bumpOuter_key_mem (k1 k2 : Str) :
    ∀ (m : List (Str × List (Str × ℕ))), ∀ p ∈ bumpOuter m k1 k2,
      p.1 ∈ m.map Prod.fst ∨ p.1 = k1 := by
  intro m
  induction m with
  | nil =>
    intro p hp
    simp only [bumpOuter, List.mem_singleton] at hp
    exact Or.inr (by rw [hp])
  | cons hd rest ih =>
    intro p hp
    obtain ⟨k, inner⟩ := hd
    simp only [bumpOuter] at hp
    by_cases hbeq : (k == k1) = true
    · rw [if_pos hbeq] at hp
      rcases List.mem_cons.mp hp with h | h
      · exact Or.inl (by rw [h] ; simp)
      · exact Or.inl (by simp ; exact Or.inr ⟨p.2, by rw [Prod.mk.eta] ; exact h⟩)
    · rw [if_neg hbeq] at hp
      rcases List.mem_cons.mp hp with h | h
      · exact Or.inl (by rw [h] ; simp)
      · rcases ih p h with h2 | h2
        · exact Or.inl (by simp at h2 ⊢ ; exact Or.inr h2)
        · exact Or.inr h2

theorem bumpOuter_inv (top : List Str) (k1 k2 : Str) (hk1 : k1 ∈ top)
    (hk2 : k2 ∈ top) (hlt : lexLt k1 k2 = true) :
    ∀ (m : List (Str × List (Str × ℕ))), MatrixInv top m →
      MatrixInv top (bumpOuter m k1 k2) := by
  intro m
  induction m with
  | nil =>
    intro _
    refine ⟨by simp [bumpOuter], ?_⟩
    intro p hp
    simp only [bumpOuter, List.mem_singleton] at hp
    subst hp
    refine ⟨by simp, ?_⟩
    intro q hq
    simp only [List.mem_singleton] at hq
    subst hq
    exact ⟨hk1, hk2, hlt⟩
  | cons hd rest ih =>
    intro hinv
    obtain ⟨k, inner⟩ := hd
    obtain ⟨hnodup, hprops⟩ := hinv
    rw [List.map_cons] at hnodup
    obtain ⟨hknot, hrestnodup⟩ := List.nodup_cons.mp hnodup
    simp only [bumpOuter]
    by_cases hbeq : (k == k1) = true
    · rw [if_pos hbeq]
      have hkk1 : k = k1 := eq_of_beq hbeq
      constructor
      · rw [List.map_cons]
        exact List.nodup_cons.mpr ⟨hknot, hrestnodup⟩
      · intro p hp
        rcases List.mem_cons.mp hp with h | h
        · subst h
          obtain ⟨hinodup, hielems⟩ := hprops (k, inner) (List.mem_cons_self _ _)
          refine ⟨bumpInner_keys_nodup k2 inner hinodup, ?_⟩
          intro q hq
          rcases bumpInner_key_mem k2 inner q hq with hold | hnew
          · rcases List.mem_map.mp hold with ⟨q0, hq0, hq01⟩
            obtain ⟨h1, h2, h3⟩ := hielems q0 hq0
            exact ⟨h1, hq01 ▸ h2, hq01 ▸ h3⟩
          · exact ⟨hkk1 ▸ hk1, hnew ▸ hk2, by rw [hkk1, hnew] ; exact hlt⟩
        · exact hprops p (List.mem_cons_of_mem _ h)
    · rw [if_neg hbeq]
      have hrest : MatrixInv top rest :=
        ⟨hrestnodup, fun p hp => hprops p (List.mem_cons_of_mem _ hp)⟩
      obtain ⟨hnodup2, hprops2⟩ := ih hrest
      constructor
      · rw [List.map_cons]
        refine List.nodup_cons.mpr ⟨?_, hnodup2⟩
        intro hmem
        rcases List.mem_map.mp hmem with ⟨p, hp, hp1⟩
        rcases bumpOuter_key_mem k1 k2 rest p hp with h2 | h2
        · exact hknot (hp1 ▸ h2)
        · exact hbeq (beq_iff_eq.mpr (hp1.symm.trans h2))
      · intro p hp
        rcases List.mem_cons.mp hp with h | h
        · exact h ▸ hprops (k, inner) (List.mem_cons_self _ _)
        · exact hprops2 p h

theorem incrementPair_inv (top : List Str) (c1 c2 : Str)
    (m : List (Str × List (Str × ℕ))) (h : MatrixInv top m) :
    MatrixInv top (incrementPair top m c1 c2) := by
  rw [incrementPair]
  split
  case isTrue hg =>
    rw [Bool.and_eq_true, Bool.and_eq_true] at hg
    obtain ⟨⟨hc1, hc2⟩, hne⟩ := hg
    have hm1 : c1 ∈ top := by simpa using hc1
    have hm2 : c2 ∈ top := by simpa using hc2
    have hne' : c1 ≠ c2 := by rwa [bne_iff_ne] at hne
    split
    case isTrue hlt => exact bumpOuter_inv top c1 c2 hm1 hm2 hlt m h
    case isFalse hnlt =>
      have hlt2 : lexLt c2 c1 = true := by
        rcases lexLt_connex c1 c2 hne' with h2 | h2
        · exact absurd h2 hnlt
        · exact h2
      exact bumpOuter_inv top c2 c1 hm2 hm1 hlt2 m h
  case isFalse => exact h

theorem foldl_preserve {β : Type _} {α : Type _} {P : β → Prop}
    (f : β → α → β) (hstep : ∀ b a, P b → P (f b a)) :
    ∀ (l : List α) (b : β), P b → P (l.foldl f b) := by
  intro l
  induction l with
  | nil => exact fun b h => h
  | cons x xs ih => exact fun b h => ih _ (hstep b x h)

theorem pairsFold_inv (top : List Str) (ps : List (Str × Str))
    (m : List (Str × List (Str × ℕ))) (h : MatrixInv top m) :
    MatrixInv top
      (ps.foldl (fun m p => incrementPair top m p.1 p.2) m) :=
  foldl_preserve _ (fun b a hb => incrementPair_inv top a.1 a.2 b hb) ps m h

theorem flatten_pairs_nodup :
    ∀ (m : List (Str × List (Str × ℕ))),
      (m.map Prod.fst).Nodup →
      (∀ p ∈ m, (p.2.map Prod.fst).Nodup) →
      (m.flatMap (fun kv => kv.2.map (fun kn => (kv.1, kn.1)))).Nodup := by
  intro m
  induction m with
  | nil =>
    intro _ _
    simp
  | cons hd rest ih =>
    intro houter hinner
    obtain ⟨k, inner⟩ := hd
    rw [List.map_cons] at houter
    obtain ⟨hknot, hrest⟩ := List.nodup_cons.mp houter
    rw [List.flatMap_cons]
    refine List.Nodup.append ?_ ?_ ?_
    · have h1 : (inner.map Prod.fst).Nodup := hinner (k, inner) (by simp)
      have h2 : inner.map (fun kn => (k, kn.1)) =
          (inner.map Prod.fst).map (fun n => (k, n)) := by
        rw [List.map_map]
        rfl
      rw [h2]
      exact h1.map (fun a b hab => (Prod.mk.injEq k a k b ▸ hab).2)
    · exact ih hrest (fun p hp => hinner p (List.mem_cons_of_mem _ hp))
    · intro a ha hb
      rcases List.mem_map.mp ha with ⟨kn, hkn, hkna⟩
      rcases List.mem_flatMap.mp hb with ⟨kv, hkv, hmem⟩
      rcases List.mem_map.mp hmem with ⟨kn2, hkn2, hkn2a⟩
      apply hknot
      have : kv.1 = k := by
        rw [← hkna] at hkn2a
        exact congrArg Prod.fst hkn2a
      rw [← this]
      exact List.mem_map.mpr ⟨kv, hkv, rfl⟩

theorem cooccurrenceData_exists_matrix (qb : QuestionBank)
    (catScores : List (Str × JsVal)) :
    ∃ m, MatrixInv (catScores.map Prod.fst) m ∧
      cooccurrenceData qb catScores =
        m.flatMap (fun kv => kv.2.map (fun kn => CoEntry.mk kv.1 kn.1 kn.2)) := by
  by_cases hempty : catScores.isEmpty = true
  · refine ⟨[], ⟨by simp, by simp⟩, ?_⟩
    rw [cooccurrenceData, if_pos hempty]
    simp
  · rw [cooccurrenceData, if_neg hempty]
    refine ⟨_, ?_, rfl⟩
    have hnil : MatrixInv (catScores.map Prod.fst) [] := ⟨by simp, by simp⟩
    have h1 := foldl_preserve
      (fun m (q : LikertQuestion) =>
        (pairsOf (likertCategories q)).foldl
          (fun m p => incrementPair (catScores.map Prod.fst) m p.1 p.2) m)
      (fun b a hb => pairsFold_inv _ _ b hb) qb.likert [] hnil
    have h2 := foldl_preserve
      (fun m (q : ChoiceQuestion) =>
        q.options.foldl (fun m o =>
          (pairsOf (optionCategories o)).foldl
            (fun m p => incrementPair (catScores.map Prod.fst) m p.1 p.2) m) m)
      (fun b a hb => foldl_preserve _
        (fun b2 a2 hb2 => pairsFold_inv _ _ b2 hb2) a.options b hb)
      qb.forcedChoice _ h1
    exact foldl_preserve
      (fun m (q : ChoiceQuestion) =>
        q.options.foldl (fun m o =>
          (pairsOf (optionCategories o)).foldl
            (fun m p => incrementPair (catScores.map Prod.fst) m p.1 p.2) m) m)
      (fun b a hb => foldl_preserve _
        (fun b2 a2 hb2 => pairsFold_inv _ _ b2 hb2) a.options b hb)
      qb.scenario _ h2

/-- The accumulated count of an unordered category pair in the flattened
co-occurrence output. -/
def coPairCount (d : List CoEntry) (a b : Str) : ℕ :=
  ((d.filter (fun e => (e.x == a && e.y == b) || (e.x == b && e.y == a))).map
    (·.z)).sum

/-- C8: every entry of the co-occurrence output is a canonical pair — both
categories in the top set (the key list of the computed category scores),
lexicographically increasing and hence not a self-pair; no unordered pair
appears twice; and the pair count is symmetric. -/
theorem cooccurrence_canonical_symmetric (qb : QuestionBank)
    (catScores : List (Str × JsVal)) :
    (∀ e ∈ cooccurrenceData qb catScores,
      e.x ∈ catScores.map Prod.fst ∧ e.y ∈ catScores.map Prod.fst ∧
      lexLt e.x e.y = true ∧ e.x ≠ e.y) ∧
    ((cooccurrenceData qb catScores).map (fun e => (e.x, e.y))).Nodup ∧
    (∀ a b, coPairCount (cooccurrenceData qb catScores) a b =
      coPairCount (cooccurrenceData qb catScores) b a) := by
  obtain ⟨m, ⟨houter, hprops⟩, heq⟩ := cooccurrenceData_exists_matrix qb catScores
  refine ⟨?_, ?_, ?_⟩
  · intro e he
    rw [heq] at he
    rcases List.mem_flatMap.mp he with ⟨kv, hkv, hmem⟩
    rcases List.mem_map.mp hmem with ⟨kn, hkn, hkne⟩
    obtain ⟨h1, h2, h3⟩ := (hprops kv hkv).2 kn hkn
    subst hkne
    exact ⟨h1, h2, h3, lexLt_ne h3⟩
  · rw [heq]
    have hrw : (m.flatMap
          (fun kv => kv.2.map (fun kn => CoEntry.mk kv.1 kn.1 kn.2))).map
        (fun e => (e.x, e.y)) =
        m.flatMap (fun kv => kv.2.map (fun kn => (kv.1, kn.1))) := by
      rw [List.map_flatMap]
      simp only [List.map_map]
      rfl
    rw [hrw]
    exact flatten_pairs_nodup m houter (fun p hp => (hprops p hp).1)
  · intro a b
    rw [coPairCount, coPairCount]
    have : ∀ x ∈ cooccurrenceData qb catScores,
        ((x.x == a && x.y == b) || (x.x == b && x.y == a)) =
        ((x.x == b && x.y == a) || (x.x == a && x.y == b)) := by
      intro x _
      exact Bool.or_comm _ _
    rw [List.filter_congr this]

/-- A question bank with one Likert question endorsing categories `"a"`
(primary) and `"b"` (related). -/
def qbPair : QuestionBank :=
  ⟨[⟨['L'], ['x'], ['a'], Polarity.positive, true, [⟨['x'], ['b'], 1⟩], []⟩],
   [], []⟩

/-- A category score list naming categories `"a"` and `"b"`. -/
def catScoresPair : List (Str × JsVal) := [(['a'], some 1), (['b'], some 1)]

/-- Witness for C8: the concrete output holds the single canonical entry
`{x: "a", y: "b", z: 1}` and the theorem applies to it. -/
theorem cooccurrence_canonical_symmetric_witness :
    CoEntry.mk ['a'] ['b'] 1 ∈ cooccurrenceData qbPair catScoresPair ∧
    ((CoEntry.mk ['a'] ['b'] 1).x ∈ catScoresPair.map Prod.fst ∧
     (CoEntry.mk ['a'] ['b'] 1).y ∈ catScoresPair.map Prod.fst ∧
     lexLt (CoEntry.mk ['a'] ['b'] 1).x (CoEntry.mk ['a'] ['b'] 1).y = true ∧
     (CoEntry.mk ['a'] ['b'] 1).x ≠ (CoEntry.mk ['a'] ['b'] 1).y) :=
  ⟨by decide,
   (cooccurrence_canonical_symmetric qbPair catScoresPair).1
     (CoEntry.mk ['a'] ['b'] 1) (by decide)⟩

theorem cmpGt_asymm (a b : JsVal) (h : cmpGt a b = true) : cmpGt b a = false := by
  cases a with
  | none => cases b <;> simp [cmpGt] at h
  | some x =>
    cases b with
    | none => simp [cmpGt]
    | some y =>
      simp only [cmpGt, decide_eq_true_eq] at h
      simp only [cmpGt, decide_eq_false_iff_not]
      exact not_lt_of_lt h

theorem cmpGt_negTrans (a b c : JsVal) (hab : cmpGt a b = false)
    (hbc : cmpGt b c = false) : cmpGt a c = false := by
  cases a with
  | none => cases c <;> simp [cmpGt]
  | some x =>
    cases b with
    | none => simp [cmpGt] at hab
    | some y =>
      cases c with
      | none => simp [cmpGt] at hbc
      | some z =>
        simp only [cmpGt, decide_eq_false_iff_not] at hab hbc ⊢
        intro hz
        exact hab (lt_of_le_of_lt (le_of_not_lt hbc) hz)

theorem jsGtB_false_of_cmpGt_false (a b : JsVal) (h : cmpGt a b = false) :
    jsGtB a b = false := by
  cases a with
  | none => cases b <;> rfl
  | some x =>
    cases b with
    | none => simp [cmpGt] at h
    | some y => exact h

theorem insertDescBy_pairwise {α : Type _} (gt : α → α → Bool)
    (hasym : ∀ a b, gt a b = true → gt b a = false)
    (hntrans : ∀ a b c, gt a b = false → gt b c = false → gt a c = false)
    (x : α) :
    ∀ (l : List α), l.Pairwise (fun a b => gt b a = false) →
      (insertDescBy gt x l).Pairwise (fun a b => gt b a = false) := by
  intro l
  induction l with
  | nil =>
    intro _
    simp [insertDescBy]
  | cons y ys ih =>
    intro h
    obtain ⟨hy, hys⟩ := List.pairwise_cons.mp h
    simp only [insertDescBy]
    by_cases hgt : gt y x = true
    · rw [if_pos hgt]
      refine List.pairwise_cons.mpr ⟨?_, ih hys⟩
      intro w hw
      rcases List.mem_cons.mp ((insertDescBy_perm gt x ys).mem_iff.mp hw) with
        hwx | hwys
      · exact hwx ▸ hasym y x hgt
      · exact hy w hwys
    · rw [if_neg hgt]
      refine List.pairwise_cons.mpr ⟨?_, h⟩
      intro w hw
      rcases List.mem_cons.mp hw with hwy | hwys
      · exact hwy ▸ (Bool.not_eq_true _ ▸ hgt)
      · exact hntrans w y x (hy w hwys) (Bool.not_eq_true _ ▸ hgt)

theorem sortDescBy_pairwise {α : Type _} (gt : α → α → Bool)
    (hasym : ∀ a b, gt a b = true → gt b a = false)
    (hntrans : ∀ a b c, gt a b = false → gt b c = false → gt a c = false)
    (l : List α) :
    (sortDescBy gt l).Pairwise (fun a b => gt b a = false) := by
  induction l with
  | nil => simp [sortDescBy]
  | cons x xs ih => exact insertDescBy_pairwise gt hasym hntrans x _ ih

/-- Invariant of the tag score map: tag keys are distinct and each entry
records a duplicate-free list of contributing question ids. -/
def TagMapInv (m : List (Str × TagEntry)) : Prop :=
  (m.map Prod.fst).Nodup ∧ ∀ p ∈ m, p.2.questions.Nodup

theorem addTagScore_key_mem (key : Str) (v : JsVal) (qid : Str) :
    ∀ (m : List (Str × TagEntry)), ∀ p ∈ addTagScore m key v qid,
      p.1 ∈ m.map Prod.fst ∨ p.1 = key := by
  intro m
  induction m with
  | nil =>
    intro p hp
    simp only [addTagScore, List.mem_singleton] at hp
    exact Or.inr (by rw [hp])
  | cons hd rest ih =>
    intro p hp
    obtain ⟨k, e⟩ := hd
    simp only [addTagScore] at hp
    by_cases hbeq : (k == key) = true
    · rw [if_pos hbeq] at hp
      rcases List.mem_cons.mp hp with h | h
      · exact Or.inl (by rw [h] ; exact List.mem_cons_self _ _)
      · exact Or.inl (List.mem_map.mpr ⟨p, List.mem_cons_of_mem _ h, rfl⟩)
    · rw [if_neg hbeq] at hp
      rcases List.mem_cons.mp hp with h | h
      · exact Or.inl (by rw [h] ; exact List.mem_cons_self _ _)
      · rcases ih p h with h2 | h2
        · exact Or.inl (List.mem_cons_of_mem _ h2)
        · exact Or.inr h2

theorem addTagScore_inv (key : Str) (v : JsVal) (qid : Str) :
    ∀ (m : List (Str × TagEntry)), TagMapInv m →
      TagMapInv (addTagScore m key v qid) := by
  intro m
  induction m with
  | nil =>
    intro _
    refine ⟨by simp [addTagScore], ?_⟩
    intro p hp
    simp only [addTagScore, List.mem_singleton] at hp
    subst hp
    simp
  | cons hd rest ih =>
    intro hinv
    obtain ⟨k, e⟩ := hd
    obtain ⟨hnodup, hq⟩ := hinv
    rw [List.map_cons] at hnodup
    obtain ⟨hknot, hrestnodup⟩ := List.nodup_cons.mp hnodup
    have hrest : TagMapInv rest :=
      ⟨hrestnodup, fun p hp => hq p (List.mem_cons_of_mem _ hp)⟩
    simp only [addTagScore]
    by_cases hbeq : (k == key) = true
    · rw [if_pos hbeq]
      constructor
      · rw [List.map_cons]
        exact List.nodup_cons.mpr ⟨hknot, hrestnodup⟩
      · intro p hp
        rcases List.mem_cons.mp hp with h | h
        · subst h
          have he := hq (k, e) (List.mem_cons_self _ _)
          by_cases hcont : e.questions.contains qid = true
          · show (if e.questions.contains qid then e.questions
              else e.questions ++ [qid]).Nodup
            rw [if_pos hcont]
            exact he
          · show (if e.questions.contains qid then e.questions
              else e.questions ++ [qid]).Nodup
            rw [if_neg hcont]
            refine List.Nodup.append he (by simp) ?_
            intro a ha hb
            rw [List.mem_singleton] at hb
            subst hb
            exact hcont (by simpa using ha)
        · exact hq p (List.mem_cons_of_mem _ h)
    · rw [if_neg hbeq]
      obtain ⟨hnodup2, hq2⟩ := ih hrest
      constructor
      · rw [List.map_cons]
        refine List.nodup_cons.mpr ⟨?_, hnodup2⟩
        intro hmem
        rcases List.mem_map.mp hmem with ⟨p, hp, hp1⟩
        rcases addTagScore_key_mem key v qid rest p hp with h2 | h2
        · exact hknot (hp1 ▸ h2)
        · exact hbeq (beq_iff_eq.mpr (hp1.symm.trans h2))
      · intro p hp
        rcases List.mem_cons.mp hp with h | h
        · exact h ▸ hq (k, e) (List.mem_cons_self _ _)
        · exact hq2 p h

theorem tagScoreAccum_inv (qb : QuestionBank) (la : List (Str × ℚ))
    (fa : List (Str × ForcedAnswerState)) (sa : List (Str × List Str)) :
    TagMapInv (tagScoreAccum qb la fa sa) := by
  have hnil : TagMapInv ([] : List (Str × TagEntry)) := ⟨by simp, by simp⟩
  have hlik : TagMapInv (la.foldl (fun m entry =>
      match qb.likert.find? (fun q => q.id == entry.1) with
      | none => m
      | some question =>
        question.tags.foldl (fun m tag =>
          addTagScore m tag.name
            (some (normalizedValue question entry.2 * tag.weight)) entry.1) m)
      []) := by
    refine foldl_preserve _ ?_ la [] hnil
    intro b entry hb
    cases hfind : qb.likert.find? (fun q => q.id == entry.1) with
    | none => simpa [hfind] using hb
    | some question =>
      simp only [hfind]
      exact foldl_preserve _
        (fun b2 tag hb2 => addTagScore_inv _ _ _ b2 hb2) _ _ hb
  have hfc : TagMapInv (fa.foldl (fun m entry =>
      if entry.2.optionKey == "SKIP".toList then m
      else
        match qb.forcedChoice.find?
          (fun q => q.id == (entry.1.splitOn '|').headD []) with
        | none => m
        | some question =>
          match question.options.find? (fun o => o.key == entry.2.optionKey) with
          | none => m
          | some opt =>
            opt.tags.foldl (fun m tag =>
              addTagScore m tag.name
                (some (opt.primary.score * opt.primary.weight *
                  entry.2.confidence * tag.weight))
                ((entry.1.splitOn '|').headD [])) m)
      (la.foldl (fun m entry =>
        match qb.likert.find? (fun q => q.id == entry.1) with
        | none => m
        | some question =>
          question.tags.foldl (fun m tag =>
            addTagScore m tag.name
              (some (normalizedValue question entry.2 * tag.weight)) entry.1) m)
        [])) := by
    refine foldl_preserve _ ?_ fa _ hlik
    intro b entry hb
    by_cases hskip : (entry.2.optionKey == "SKIP".toList) = true
    · rw [if_pos hskip]
      exact hb
    · rw [if_neg hskip]
      cases hfind : qb.forcedChoice.find?
          (fun q => q.id == (entry.1.splitOn '|').headD []) with
      | none => simpa using hb
      | some question =>
        simp only
        cases hfind2 : question.options.find?
            (fun o => o.key == entry.2.optionKey) with
        | none => simpa using hb
        | some opt =>
          simp only
          exact foldl_preserve _
            (fun b2 tag hb2 => addTagScore_inv _ _ _ b2 hb2) _ _ hb
  rw [tagScoreAccum]
  refine foldl_preserve _ ?_ sa _ hfc
  intro b entry hb
  cases hfind : qb.scenario.find? (fun q => q.id == entry.1) with
  | none => simpa [hfind] using hb
  | some question =>
    simp only [hfind]
    refine foldl_preserve _ ?_ _ _ hb
    intro b2 rk hb2
    cases hfind2 : question.options.find? (fun o => o.key == rk.2) with
    | none => simpa [hfind2] using hb2
    | some opt =>
      simp only [hfind2]
      exact foldl_preserve _
        (fun b3 tag hb3 => addTagScore_inv _ _ _ b3 hb3) _ _ hb2

/-- C10: the tag score output is the first ten entries of the stable
descending sort of the accumulated tag map — at most ten entries, ordered
so that no later entry has a strictly greater finite score, with every tag
of sorted rank ten or beyond absent — and every retained entry carries a
duplicate-free list of contributing question ids. -/
theorem tag_scores_truncated_sorted_dedup (qb : QuestionBank)
    (la : List (Str × ℚ)) (fa : List (Str × ForcedAnswerState))
    (sa : List (Str × List Str)) :
    (tagScores qb la fa sa).length ≤ 10 ∧
    (tagScores qb la fa sa).Pairwise
      (fun a b => jsGtB b.2.score a.2.score = false) ∧
    (∀ p ∈ (sortDescBy (fun a b => cmpGt a.2.score b.2.score)
        (tagScoreAccum qb la fa sa)).drop 10,
      p.1 ∉ (tagScores qb la fa sa).map Prod.fst) ∧
    (∀ p ∈ tagScores qb la fa sa, p.2.questions.Nodup) := by
  obtain ⟨hkeys, hquestions⟩ := tagScoreAccum_inv qb la fa sa
  have hperm := sortDescBy_perm
    (fun (a b : Str × TagEntry) => cmpGt a.2.score b.2.score)
    (tagScoreAccum qb la fa sa)
  have hsortedkeys : ((sortDescBy (fun (a b : Str × TagEntry) =>
      cmpGt a.2.score b.2.score) (tagScoreAccum qb la fa sa)).map
        Prod.fst).Nodup :=
    ((hperm.map Prod.fst).nodup_iff).mpr hkeys
  refine ⟨?_, ?_, ?_, ?_⟩
  · exact List.length_take_le 10 _
  · have hpw := sortDescBy_pairwise
      (fun (a b : Str × TagEntry) => cmpGt a.2.score b.2.score)
      (fun a b h => cmpGt_asymm _ _ h)
      (fun a b c h1 h2 => cmpGt_negTrans _ _ _ h1 h2)
      (tagScoreAccum qb la fa sa)
    have htake := List.Pairwise.sublist (List.take_sublist 10 _) hpw
    exact htake.imp (fun h => jsGtB_false_of_cmpGt_false _ _ h)
  · intro p hp hmem
    have hsplit := List.take_append_drop 10
      (sortDescBy (fun (a b : Str × TagEntry) => cmpGt a.2.score b.2.score)
        (tagScoreAccum qb la fa sa))
    have : (((sortDescBy (fun (a b : Str × TagEntry) =>
        cmpGt a.2.score b.2.score) (tagScoreAccum qb la fa sa)).take 10).map
          Prod.fst ++
        ((sortDescBy (fun (a b : Str × TagEntry) => cmpGt a.2.score b.2.score)
          (tagScoreAccum qb la fa sa)).drop 10).map Prod.fst).Nodup := by
      rw [← List.map_append, hsplit]
      exact hsortedkeys
    exact List.disjoint_of_nodup_append this hmem
      (List.mem_map.mpr ⟨p, hp, rfl⟩)
  · intro p hp
    have hp2 : p ∈ tagScoreAccum qb la fa sa :=
      hperm.mem_iff.mp (List.take_subset 10 _ hp)
    exact hquestions p hp2

set_option maxHeartbeats 1000000 in
theorem tagScores_qbScn4_full :
    tagScores qbScn4 [] [] scnAnswers4 =
      [(['t', 'a'], ⟨some 4, [['S', '1']]⟩),
       (['t', 'b'], ⟨some 2, [['S', '1']]⟩),
       (['t', 'c'], ⟨some 1, [['S', '1']]⟩),
       (['t', 'd'], ⟨none, [['S', '1']]⟩)] := by
  have h0 : tagScores qbScn4 [] [] scnAnswers4 =
      (sortDescBy (fun a b => cmpGt a.2.score b.2.score)
        [(['t', 'a'], ⟨some (0 + 4 * 1 * 1 * 1), [['S', '1']]⟩),
         (['t', 'b'], ⟨some (0 + 4 * 1 * 0.5 * 1), [['S', '1']]⟩),
         (['t', 'c'], ⟨some (0 + 4 * 1 * 0.25 * 1), [['S', '1']]⟩),
         (['t', 'd'], ⟨none, [['S', '1']]⟩)]).take 10 := rfl
  rw [h0]
  norm_num [sortDescBy, insertDescBy, cmpGt]

/-- Witness for C10 at the concrete four-option scenario input: the output
has at most ten entries and its first entry carries a duplicate-free
question list. -/
theorem tag_scores_truncated_sorted_dedup_witness :
    (tagScores qbScn4 [] [] scnAnswers4).length ≤ 10 ∧
    (['t', 'a'], (⟨some 4, [['S', '1']]⟩ : TagEntry)) ∈
      tagScores qbScn4 [] [] scnAnswers4 ∧
    (TagEntry.mk (some 4) [['S', '1']]).questions.Nodup :=
  ⟨(tag_scores_truncated_sorted_dedup qbScn4 [] [] scnAnswers4).1,
   by simp [tagScores_qbScn4_full],
   (tag_scores_truncated_sorted_dedup qbScn4 [] [] scnAnswers4).2.2.2
     (['t', 'a'], ⟨some 4, [['S', '1']]⟩) (by simp [tagScores_qbScn4_full])⟩
